import Mathlib

/-!
Verification of pg_rman (backup/recovery manager for PostgreSQL) against its
natural-language specification.

The development shallowly embeds the C sources (src/data.c, src/restore.c,
src/catalog.c, src/delete.c, src/validate.c, src/backup.c, src/xlog.c,
src/dir.c) in Lean.  Pure computations (page parsing, retention selection,
catalog filtering) become Lean functions; file-system state is passed
explicitly (file lists, sizes); machine integers are modelled as Nat with
masks where the C code relies on bit width.  C strings are modelled as
List Char with strcmp-style lexicographic comparison.
-/

namespace PgRman

/-! ## C string model

Paths and directory entry names are NUL-free C strings, modelled as List Char.
strcmp compares character by character; for the character sets appearing here
(ASCII) the Char order coincides with byte order. -/

/-- Result sign of strcmp(a, b) < 0: a precedes b lexicographically. -/
def strcmpLt : List Char → List Char → Bool
  | [], [] => false
  | [], _ :: _ => true
  | _ :: _, [] => false
  | a :: as, b :: bs => if a < b then true else if b < a then false else strcmpLt as bs

/-- Result sign of strcmp(a, b) <= 0. -/
def strcmpLe (a b : List Char) : Bool :=
  !(strcmpLt b a)

/-- Test strstr(hay, needle) == hay: needle is an initial segment of hay. -/
def strstrAtStart : List Char → List Char → Bool
  | _, [] => true
  | [], _ :: _ => false
  | h :: hs, n :: ns => h = n && strstrAtStart hs ns

/-! ## Page layout constants (PostgreSQL headers used by src/data.c) -/

/-- Cluster page size (bytes); pg_rman is built with the standard 8 KiB pages. -/
def BLCKSZ : Nat := 8192

/-- Size of PageHeaderData up to pd_linp, i.e. offsetof(PageHeaderData, pd_linp). -/
def SizeOfPageHeaderData : Nat := 24

/-- Current page layout version number expected by the page parser. -/
def PG_PAGE_LAYOUT_VERSION : Nat := 4

/-- PD_HAS_FREE_LINES | PD_PAGE_FULL | PD_ALL_VISIBLE. -/
def PD_VALID_FLAG_BITS : Nat := 0x0007

/-- Complement of PD_VALID_FLAG_BITS within a uint16, the mask used by the
pd_flags check in parse_page. -/
def PD_INVALID_FLAG_MASK : Nat := 0xFFF8

/-- TYPEALIGN(MAXIMUM_ALIGNOF, n) with MAXIMUM_ALIGNOF = 8. -/
def MAXALIGN (n : Nat) : Nat := ((n + 7) / 8) * 8

/-! ## Data page model (src/data.c, union DataPage)

A page as read from a data file.  The PageHeaderData fields are kept
verbatim; pd_lsn stores the combined 64-bit value that
PageXLogRecPtrGet(header->pd_lsn) produces from the two on-disk halves.
The four content fields are the reinterpretations of the bytes at
PageGetContents(page) under the GinMetaPageData, BrinMetaPageData and
SpGistMetaPageData structs of src/idxpagehdr.h (the same bytes read
through three different structs). -/

structure DataPage where
  /-- Combined 64-bit LSN, PageXLogRecPtrGet(pd_lsn). -/
  pd_lsn : Nat
  /-- Page checksum field (uint16). -/
  pd_checksum : Nat
  /-- Flag bits (uint16). -/
  pd_flags : Nat
  /-- Offset to start of free space (uint16). -/
  pd_lower : Nat
  /-- Offset to end of free space (uint16). -/
  pd_upper : Nat
  /-- Offset to start of special space (uint16). -/
  pd_special : Nat
  /-- Page size together with layout version (uint16). -/
  pd_pagesize_version : Nat
  /-- GinMetaPageData.ginVersion read at PageGetContents (int32). -/
  ginVersion : Int
  /-- BrinMetaPageData.brinVersion read at PageGetContents (uint32). -/
  brinVersion : Nat
  /-- BrinMetaPageData.brinMagic read at PageGetContents (uint32). -/
  brinMagic : Nat
  /-- SpGistMetaPageData.magicNumber read at PageGetContents (uint32). -/
  spgistMagic : Nat
deriving DecidableEq, Repr

/-- PageGetPageSize: pd_pagesize_version & 0xFF00. -/
def PageGetPageSize (page : DataPage) : Nat :=
  page.pd_pagesize_version &&& 0xFF00

/-- PageGetPageLayoutVersion: pd_pagesize_version & 0x00FF. -/
def PageGetPageLayoutVersion (page : DataPage) : Nat :=
  page.pd_pagesize_version &&& 0x00FF

/-- GIN_CURRENT_VERSION from src/idxpagehdr.h. -/
def GIN_CURRENT_VERSION : Int := 2

/-- IS_GIN_INDEX_METAPAGE from src/idxpagehdr.h (GIN_METAPAGE_BLKNO = 0). -/
def IS_GIN_INDEX_METAPAGE (blkno : Nat) (page : DataPage) : Bool :=
  blkno = 0 && page.ginVersion = GIN_CURRENT_VERSION

/-- BRIN_CURRENT_VERSION from src/idxpagehdr.h. -/
def BRIN_CURRENT_VERSION : Nat := 1

/-- BRIN_META_MAGIC from src/idxpagehdr.h. -/
def BRIN_META_MAGIC : Nat := 0xA8109CFA

/-- IS_BRIN_INDEX_METAPAGE from src/idxpagehdr.h (BRIN_METAPAGE_BLKNO = 0). -/
def IS_BRIN_INDEX_METAPAGE (blkno : Nat) (page : DataPage) : Bool :=
  blkno = 0 && page.brinVersion = BRIN_CURRENT_VERSION &&
    page.brinMagic = BRIN_META_MAGIC

/-- SPGIST_MAGIC_NUMBER from src/idxpagehdr.h. -/
def SPGIST_MAGIC_NUMBER : Nat := 0xBA0BABEE

/-- IS_SPGIST_INDEX_METAPAGE from src/idxpagehdr.h (SPGIST_METAPAGE_BLKNO = 0). -/
def IS_SPGIST_INDEX_METAPAGE (blkno : Nat) (page : DataPage) : Bool :=
  blkno = 0 && page.spgistMagic = SPGIST_MAGIC_NUMBER

/-- XLogRecPtrIsInvalid: the LSN equals InvalidXLogRecPtr (0). -/
def XLogRecPtrIsInvalid (lsn : Nat) : Bool :=
  lsn = 0

/-- Output of parse_page: the returned Bool together with the values stored
through the lsn, offset and length out-parameters. -/
structure ParsedPage where
  recognized : Bool
  lsn : Nat
  hole_offset : Nat
  hole_length : Nat
deriving DecidableEq, Repr

/-- Condition of the main if statement of parse_page (src/data.c:220-228):
the page-header sanity conjunction. -/
def page_header_sane (page : DataPage) : Prop :=
  PageGetPageSize page = BLCKSZ ∧
  PageGetPageLayoutVersion page = PG_PAGE_LAYOUT_VERSION ∧
  page.pd_flags &&& PD_INVALID_FLAG_MASK = 0 ∧
  SizeOfPageHeaderData ≤ page.pd_lower ∧
  page.pd_lower ≤ page.pd_upper ∧
  page.pd_upper ≤ page.pd_special ∧
  page.pd_special ≤ BLCKSZ ∧
  page.pd_special = MAXALIGN page.pd_special ∧
  ¬(XLogRecPtrIsInvalid page.pd_lsn = true)

instance (page : DataPage) : Decidable (page_header_sane page) := by
  unfold page_header_sane; infer_instance

/-- Condition of the metapage if statement of parse_page (src/data.c:234-236). -/
def page_is_index_metapage (blkno : Nat) (page : DataPage) : Prop :=
  IS_GIN_INDEX_METAPAGE blkno page = true ∨
  IS_BRIN_INDEX_METAPAGE blkno page = true ∨
  IS_SPGIST_INDEX_METAPAGE blkno page = true

instance (blkno : Nat) (page : DataPage) :
    Decidable (page_is_index_metapage blkno page) := by
  unfold page_is_index_metapage; infer_instance

/-- Embedding of parse_page (src/data.c:204-249).  Extracts the page LSN and,
when the page is recognized as a valid data page, the hole bounds
(pd_lower, pd_upper - pd_lower); metapages of GIN/BRIN/SP-GiST indexes are
reported as unrecognized so that the caller copies the whole file. -/
def parse_page (blkno : Nat) (page : DataPage) : ParsedPage :=
  if page_header_sane page then
    if page_is_index_metapage blkno page then
      { recognized := false, lsn := page.pd_lsn, hole_offset := 0, hole_length := 0 }
    else
      { recognized := true, lsn := page.pd_lsn,
        hole_offset := page.pd_lower,
        hole_length := page.pd_upper - page.pd_lower }
  else
    { recognized := false, lsn := page.pd_lsn, hole_offset := 0, hole_length := 0 }

/-- A concrete well-formed heap page used by witnesses. -/
def demoPage : DataPage :=
  { pd_lsn := 0x10000A0, pd_checksum := 0, pd_flags := 0,
    pd_lower := 40, pd_upper := 8000, pd_special := 8192,
    pd_pagesize_version := 8196,
    ginVersion := 0, brinVersion := 0, brinMagic := 0, spgistMagic := 0 }

/-- C4: parse_page recognizes a page (returning its hole as
(pd_lower, pd_upper - pd_lower)) exactly when the reported page size is
BLCKSZ, the layout version matches, no flag bits outside the valid mask are
set, SizeOfPageHeaderData <= pd_lower <= pd_upper <= pd_special <= BLCKSZ,
pd_special is max-aligned, the page LSN is not invalid, and the page is not a
GIN, BRIN or SP-GiST index metapage. -/
theorem parse_page_recognizes_iff (blkno : Nat) (page : DataPage) :
    ((parse_page blkno page).recognized = true ↔
      (page_header_sane page ∧ ¬page_is_index_metapage blkno page)) ∧
    ((parse_page blkno page).recognized = true →
      (parse_page blkno page).hole_offset = page.pd_lower ∧
      (parse_page blkno page).hole_length = page.pd_upper - page.pd_lower) := by
  by_cases hmain : page_header_sane page
  · by_cases hmeta : page_is_index_metapage blkno page
    · have hpp : parse_page blkno page =
          { recognized := false, lsn := page.pd_lsn,
            hole_offset := 0, hole_length := 0 } := by
        unfold parse_page; rw [if_pos hmain, if_pos hmeta]
      rw [hpp]
      exact ⟨⟨fun h => absurd h (by simp), fun h => absurd hmeta h.2⟩,
             fun h => absurd h (by simp)⟩
    · have hpp : parse_page blkno page =
          { recognized := true, lsn := page.pd_lsn,
            hole_offset := page.pd_lower,
            hole_length := page.pd_upper - page.pd_lower } := by
        unfold parse_page; rw [if_pos hmain, if_neg hmeta]
      rw [hpp]
      exact ⟨⟨fun _ => ⟨hmain, hmeta⟩, fun _ => rfl⟩, fun _ => ⟨rfl, rfl⟩⟩
  · have hpp : parse_page blkno page =
        { recognized := false, lsn := page.pd_lsn,
          hole_offset := 0, hole_length := 0 } := by
      unfold parse_page; rw [if_neg hmain]
    rw [hpp]
    exact ⟨⟨fun h => absurd h (by simp), fun h => absurd h.1 hmain⟩,
           fun h => absurd h (by simp)⟩

/-- Witness for parse_page_recognizes_iff at a concrete recognized page. -/
theorem parse_page_recognizes_iff_witness :
    (parse_page 1 demoPage).hole_offset = demoPage.pd_lower ∧
    (parse_page 1 demoPage).hole_length = demoPage.pd_upper - demoPage.pd_lower :=
  (parse_page_recognizes_iff 1 demoPage).2 (by decide)

/-! ## WAL-archive wait (src/backup.c, wait_for_archive)

After pg_backup_stop, the backup engine computes
done_path = "<pgdata>/pg_wal/archive_status/<walname>.done" and polls its
existence with sleep(1) between attempts.  The file system is modelled as a
function from the poll number (0, 1, 2, ... seconds after the first check)
to whether the .done file exists at that moment. -/

/-- Bound on the archive wait (src/backup.c:25): wait 10 seconds. -/
def TIMEOUT_ARCHIVE : Nat := 10

/-- Outcome of the polling loop of wait_for_archive: either the .done file
was seen at some poll, or ereport(ERROR_ARCHIVE_FAILED) fired. -/
inductive WaitResult where
  | archived (tries : Nat)
  | archive_failed
deriving DecidableEq, Repr

/-- Embedding of the polling loop of wait_for_archive (src/backup.c:1184-1199):
while the .done file does not exist, sleep one second, increment try_count,
and fail with ERROR_ARCHIVE_FAILED once try_count exceeds TIMEOUT_ARCHIVE. -/
def wait_for_archive (doneExists : Nat → Bool) (try_count : Nat) : WaitResult :=
  if doneExists try_count then
    .archived try_count
  else if try_count + 1 > TIMEOUT_ARCHIVE then
    .archive_failed
  else
    wait_for_archive doneExists (try_count + 1)
termination_by TIMEOUT_ARCHIVE + 1 - try_count
decreasing_by
  simp only [TIMEOUT_ARCHIVE] at *
  omega

theorem wait_for_archive_aux (doneExists : Nat → Bool) :
    ∀ fuel t, TIMEOUT_ARCHIVE + 1 - t = fuel → t ≤ TIMEOUT_ARCHIVE →
      ((wait_for_archive doneExists t = .archive_failed ↔
        ∀ k, t ≤ k → k ≤ TIMEOUT_ARCHIVE → doneExists k = false) ∧
       (∀ j, wait_for_archive doneExists t = .archived j →
        doneExists j = true ∧ t ≤ j ∧ j ≤ TIMEOUT_ARCHIVE)) := by
  intro fuel
  induction fuel with
  | zero =>
    intro t hfuel ht
    simp only [TIMEOUT_ARCHIVE] at hfuel ht
    omega
  | succ n ih =>
    intro t hfuel ht
    rw [wait_for_archive]
    cases hd : doneExists t with
    | true =>
      simp only [if_pos rfl, if_true]
      constructor
      · constructor
        · intro h; cases h
        · intro h
          have := h t le_rfl ht
          rw [hd] at this
          cases this
      · intro j hj
        cases hj
        exact ⟨hd, le_rfl, ht⟩
    | false =>
      simp only [Bool.false_eq_true, if_false]
      by_cases hstop : t + 1 > TIMEOUT_ARCHIVE
      · rw [if_pos hstop]
        have ht10 : t = TIMEOUT_ARCHIVE := by omega
        constructor
        · constructor
          · intro _ k hk1 hk2
            have : k = t := by omega
            rw [this, hd]
          · intro _; rfl
        · intro j hj; cases hj
      · rw [if_neg hstop]
        have ih' := ih (t + 1) (by omega) (by omega)
        constructor
        · rw [ih'.1]
          constructor
          · intro h k hk1 hk2
            rcases Nat.eq_or_lt_of_le hk1 with heq | hlt
            · rw [← heq, hd]
            · exact h k hlt hk2
          · intro h k hk1 hk2
            exact h k (by omega) hk2
        · intro j hj
          obtain ⟨h1, h2, h3⟩ := ih'.2 j hj
          exact ⟨h1, by omega, h3⟩

/-- C8: the archive wait polls the .done file once per second starting
immediately; it reports archive_failed exactly when the file is absent at
every poll up to the 10-second timeout, and any successful exit saw the file
within the timeout. -/
theorem wait_for_archive_spec (doneExists : Nat → Bool) :
    (wait_for_archive doneExists 0 = .archive_failed ↔
      ∀ k, k ≤ TIMEOUT_ARCHIVE → doneExists k = false) ∧
    (∀ j, wait_for_archive doneExists 0 = .archived j →
      doneExists j = true ∧ j ≤ TIMEOUT_ARCHIVE) := by
  have h := wait_for_archive_aux doneExists (TIMEOUT_ARCHIVE + 1) 0 rfl (by omega)
  constructor
  · rw [h.1]
    exact ⟨fun hall k hk => hall k (Nat.zero_le k) hk,
           fun hall k _ hk => hall k hk⟩
  · intro j hj
    obtain ⟨h1, _, h3⟩ := h.2 j hj
    exact ⟨h1, h3⟩

/-- The .done file appears at the fourth poll (3 seconds in). -/
def demoDoneAt3 : Nat → Bool := fun k => k = 3

/-- Witness for wait_for_archive_spec: when the .done file appears at poll 3
the wait exits successfully within the timeout. -/
theorem wait_for_archive_spec_witness :
    demoDoneAt3 3 = true ∧ 3 ≤ TIMEOUT_ARCHIVE :=
  (wait_for_archive_spec demoDoneAt3).2 3 (by
    rw [wait_for_archive, wait_for_archive, wait_for_archive, wait_for_archive]
    simp [demoDoneAt3, TIMEOUT_ARCHIVE])

/-! ## Backup catalog data model (src/pg_rman.h)

time_t instants are represented by their local calendar rendering: the
YYYYMMDD numeral and the HHMMSS numeral that strftime("%Y%m%d") and
strftime("%H%M%S") produce for them.  Within strftime's domain this encoding
is an order isomorphism, and it makes the catalog's string comparisons
against formatted times directly expressible. -/

structure PgTime where
  date : Nat
  time : Nat
deriving DecidableEq, Repr

/-- Comparison of two instants (the time_t order under the encoding). -/
def PgTime.le (a b : PgTime) : Prop :=
  a.date < b.date ∨ (a.date = b.date ∧ a.time ≤ b.time)

/-- Strict comparison of two instants. -/
def PgTime.lt (a b : PgTime) : Prop :=
  a.date < b.date ∨ (a.date = b.date ∧ a.time < b.time)

instance (a b : PgTime) : Decidable (PgTime.le a b) := by
  unfold PgTime.le; infer_instance

instance (a b : PgTime) : Decidable (PgTime.lt a b) := by
  unfold PgTime.lt; infer_instance

theorem PgTime.le_refl (a : PgTime) : PgTime.le a a :=
  Or.inr ⟨rfl, Nat.le_refl _⟩

theorem PgTime.le_total (a b : PgTime) : PgTime.le a b ∨ PgTime.le b a := by
  unfold PgTime.le; omega

theorem PgTime.le_trans {a b c : PgTime} (h1 : PgTime.le a b) (h2 : PgTime.le b c) :
    PgTime.le a c := by
  unfold PgTime.le at *; omega

theorem PgTime.not_le {a b : PgTime} : ¬PgTime.le a b ↔ PgTime.lt b a := by
  unfold PgTime.le PgTime.lt; omega

theorem PgTime.not_lt {a b : PgTime} : ¬PgTime.lt a b ↔ PgTime.le b a := by
  unfold PgTime.le PgTime.lt; omega

theorem PgTime.absurd_lt_le {a b : PgTime} (h1 : PgTime.lt a b)
    (h2 : PgTime.le b a) : False := by
  unfold PgTime.le PgTime.lt at *; omega

theorem PgTime.lt_of_lt_of_le {a b c : PgTime} (h1 : PgTime.lt a b)
    (h2 : PgTime.le b c) : PgTime.lt a c := by
  unfold PgTime.le PgTime.lt at *; omega

/-- BackupStatus (src/pg_rman.h:121-131). -/
inductive BackupStatus where
  | BACKUP_STATUS_INVALID
  | BACKUP_STATUS_OK
  | BACKUP_STATUS_RUNNING
  | BACKUP_STATUS_ERROR
  | BACKUP_STATUS_DELETING
  | BACKUP_STATUS_DELETED
  | BACKUP_STATUS_DONE
  | BACKUP_STATUS_CORRUPT
deriving DecidableEq, Repr

open BackupStatus

/-- BackupMode (src/pg_rman.h:133-139); the enum order INVALID < ARCHIVE <
INCREMENTAL < FULL is significant for the >= comparisons in the sources. -/
inductive BackupMode where
  | BACKUP_MODE_INVALID
  | BACKUP_MODE_ARCHIVE
  | BACKUP_MODE_INCREMENTAL
  | BACKUP_MODE_FULL
deriving DecidableEq, Repr

open BackupMode

/-- Numeric value of the BackupMode enum constant. -/
def BackupMode.rank : BackupMode → Nat
  | BACKUP_MODE_INVALID => 0
  | BACKUP_MODE_ARCHIVE => 1
  | BACKUP_MODE_INCREMENTAL => 2
  | BACKUP_MODE_FULL => 3

/-- Backup record, restricted to the fields the verified claims consult
(src/pg_rman.h:146-182). -/
structure pgBackup where
  backup_mode : BackupMode
  status : BackupStatus
  tli : Nat
  start_lsn : Nat
  stop_lsn : Nat
  start_time : PgTime
  recovery_time : PgTime
  recovery_xid : Nat
deriving DecidableEq, Repr

/-- HAVE_DATABASE (src/pg_rman.h:202): backup_mode >= BACKUP_MODE_INCREMENTAL. -/
def HAVE_DATABASE (b : pgBackup) : Bool :=
  BACKUP_MODE_INCREMENTAL.rank ≤ b.backup_mode.rank

/-- HAVE_ARCLOG (src/pg_rman.h:203): backup_mode >= BACKUP_MODE_ARCHIVE. -/
def HAVE_ARCLOG (b : pgBackup) : Bool :=
  BACKUP_MODE_ARCHIVE.rank ≤ b.backup_mode.rank

/-- Sort relation of pgBackupCompareId (src/catalog.c:608-620): ascending
by start_time. -/
def backupIdAsc (a b : pgBackup) : Prop :=
  PgTime.le a.start_time b.start_time

/-- Sort relation of pgBackupCompareIdDesc (src/catalog.c:623-627):
descending by start_time. -/
def backupIdDesc (a b : pgBackup) : Prop :=
  PgTime.le b.start_time a.start_time

instance (a b : pgBackup) : Decidable (backupIdAsc a b) := by
  unfold backupIdAsc; infer_instance

instance (a b : pgBackup) : Decidable (backupIdDesc a b) := by
  unfold backupIdDesc; infer_instance

instance : IsTotal pgBackup backupIdAsc :=
  ⟨fun a b => PgTime.le_total a.start_time b.start_time⟩

instance : IsTrans pgBackup backupIdAsc :=
  ⟨fun _ _ _ h1 h2 => PgTime.le_trans h1 h2⟩

instance : IsTotal pgBackup backupIdDesc :=
  ⟨fun a b => (PgTime.le_total b.start_time a.start_time)⟩

instance : IsTrans pgBackup backupIdDesc :=
  ⟨fun _ _ _ h1 h2 => PgTime.le_trans h2 h1⟩

/-! ## Validation pass (src/validate.c, do_validate)

do_validate lists the catalog records in the requested range, sorts them
ascending by start_time, flips leftover RUNNING/DELETING records to ERROR
(only when this process owns the catalog lock), and submits exactly the DONE
records to pgBackupValidate with CRC checking. -/

/-- Per-record treatment inside the loop of do_validate (src/validate.c:40-59):
the possibly rewritten record together with whether it was submitted to
pgBackupValidate (CRC validation). -/
def do_validate_step (another_pg_rman : Bool) (b : pgBackup) : pgBackup × Bool :=
  let b' :=
    if ¬another_pg_rman ∧
       (b.status = BACKUP_STATUS_RUNNING ∨ b.status = BACKUP_STATUS_DELETING) then
      { b with status := BACKUP_STATUS_ERROR }
    else
      b
  (b', b'.status = BACKUP_STATUS_DONE)

/-- Embedding of do_validate (src/validate.c:21-68) after the catalog list
has been obtained: qsort by pgBackupCompareId, then the per-record loop.
another_pg_rman records whether catalog_lock() returned 1 (lock held by a
concurrent pg_rman). -/
def do_validate (another_pg_rman : Bool) (backup_list : List pgBackup) :
    List (pgBackup × Bool) :=
  (backup_list.insertionSort backupIdAsc).map (do_validate_step another_pg_rman)

/-- C10: every RUNNING or DELETING record in the range is rewritten to ERROR
before validation when no concurrent pg_rman holds the catalog lock; when the
lock is held the record is left unchanged; and only records whose status is
DONE are submitted to CRC validation. -/
theorem do_validate_spec (another_pg_rman : Bool) (backup_list : List pgBackup)
    (b : pgBackup) (hmem : b ∈ backup_list) :
    do_validate_step another_pg_rman b ∈ do_validate another_pg_rman backup_list ∧
    (another_pg_rman = false →
     (b.status = BACKUP_STATUS_RUNNING ∨ b.status = BACKUP_STATUS_DELETING) →
      (do_validate_step another_pg_rman b).1.status = BACKUP_STATUS_ERROR ∧
      (do_validate_step another_pg_rman b).2 = false) ∧
    (another_pg_rman = true → (do_validate_step another_pg_rman b).1 = b) ∧
    ((do_validate_step another_pg_rman b).2 = true →
      b.status = BACKUP_STATUS_DONE) := by
  refine ⟨?_, ?_, ?_, ?_⟩
  · unfold do_validate
    exact List.mem_map_of_mem _
      ((List.perm_insertionSort backupIdAsc backup_list).mem_iff.mpr hmem)
  · intro hlock hst
    subst hlock
    unfold do_validate_step
    have hcond : ¬((false : Bool) = true) ∧
        (b.status = BACKUP_STATUS_RUNNING ∨ b.status = BACKUP_STATUS_DELETING) :=
      ⟨by simp, hst⟩
    rw [if_pos hcond]
    exact ⟨rfl, by simp⟩
  · intro hlock
    subst hlock
    unfold do_validate_step
    rw [if_neg (by simp)]
  · intro hval
    unfold do_validate_step at hval
    by_cases hcond : (¬(another_pg_rman = true) ∧
        (b.status = BACKUP_STATUS_RUNNING ∨ b.status = BACKUP_STATUS_DELETING))
    · rw [if_pos hcond] at hval
      simp at hval
    · rw [if_neg hcond] at hval
      exact of_decide_eq_true hval

/-- Witness for do_validate_spec: a DELETING record is flipped to ERROR and
not validated when the lock is free. -/
theorem do_validate_spec_witness :
    (do_validate_step false
        { backup_mode := BACKUP_MODE_FULL, status := BACKUP_STATUS_DELETING,
          tli := 1, start_lsn := 0, stop_lsn := 0,
          start_time := ⟨20250101, 120000⟩, recovery_time := ⟨20250101, 120100⟩,
          recovery_xid := 7 }).1.status = BACKUP_STATUS_ERROR := by
  have h := do_validate_spec false
    [{ backup_mode := BACKUP_MODE_FULL, status := BACKUP_STATUS_DELETING,
       tli := 1, start_lsn := 0, stop_lsn := 0,
       start_time := ⟨20250101, 120000⟩, recovery_time := ⟨20250101, 120100⟩,
       recovery_xid := 7 }]
    { backup_mode := BACKUP_MODE_FULL, status := BACKUP_STATUS_DELETING,
      tli := 1, start_lsn := 0, stop_lsn := 0,
      start_time := ⟨20250101, 120000⟩, recovery_time := ⟨20250101, 120100⟩,
      recovery_xid := 7 }
    (List.mem_singleton.mpr rfl)
  exact (h.2.1 rfl (Or.inr rfl)).1

/-! ## PITR-driven deletion (src/delete.c, do_delete)

do_delete walks the catalog list (descending by start_time, as returned by
catalog_get_backup_list) and deletes records taken at or before the given
DATE; without the force option, OK records are kept until the first OK
backup of mode >= FULL at or before DATE has been seen (the boundary needed
for recovery to DATE). -/

/-- Deletion loop of do_delete (src/delete.c:67-108), returning the records
passed to pgBackupDeleteFiles.  The Bool argument is found_boundary_to_keep. -/
def do_delete_scan (dateBegin : PgTime) (force : Bool) :
    List pgBackup → Bool → List pgBackup
  | [], _ => []
  | b :: rest, found =>
    if PgTime.lt dateBegin b.start_time then
      do_delete_scan dateBegin force rest found
    else if ¬force ∧ ¬found ∧ b.status = BACKUP_STATUS_OK then
      if BACKUP_MODE_FULL.rank ≤ b.backup_mode.rank then
        do_delete_scan dateBegin force rest true
      else
        do_delete_scan dateBegin force rest found
    else
      b :: do_delete_scan dateBegin force rest found

/-- Embedding of the deletion pass of do_delete (src/delete.c:21-118) on an
already-listed catalog (locking, argument checks and the file removal of
pgBackupDeleteFiles are outside this model).  backup_list is the descending
catalog listing; found_boundary_to_keep starts false. -/
def do_delete (dateBegin : PgTime) (force : Bool)
    (backup_list : List pgBackup) : List pgBackup :=
  do_delete_scan dateBegin force backup_list false

/-- First record of the (descending) list that is the latest OK backup of
mode >= FULL taken at or before DATE: the boundary do_delete keeps. -/
def firstFullBoundary (dateBegin : PgTime) (backup_list : List pgBackup) :
    Option pgBackup :=
  backup_list.find? (fun b =>
    b.status = BACKUP_STATUS_OK ∧
    BACKUP_MODE_FULL.rank ≤ b.backup_mode.rank ∧
    PgTime.le b.start_time dateBegin)

theorem do_delete_scan_subset (dateBegin : PgTime) (force : Bool) :
    ∀ (l : List pgBackup) (found : Bool) (b : pgBackup),
      b ∈ do_delete_scan dateBegin force l found → b ∈ l := by
  intro l
  induction l with
  | nil => intro found b h; cases h
  | cons hd tl ih =>
    intro found b h
    unfold do_delete_scan at h
    split_ifs at h with h1 h2 h3
    · exact List.mem_cons_of_mem hd (ih found b h)
    · exact List.mem_cons_of_mem hd (ih true b h)
    · exact List.mem_cons_of_mem hd (ih found b h)
    · rcases List.mem_cons.mp h with heq | hmem
      · exact heq ▸ List.mem_cons_self hd tl
      · exact List.mem_cons_of_mem hd (ih found b hmem)

theorem do_delete_scan_le_date (dateBegin : PgTime) (force : Bool) :
    ∀ (l : List pgBackup) (found : Bool) (b : pgBackup),
      b ∈ do_delete_scan dateBegin force l found →
      PgTime.le b.start_time dateBegin := by
  intro l
  induction l with
  | nil => intro found b h; cases h
  | cons hd tl ih =>
    intro found b h
    unfold do_delete_scan at h
    split_ifs at h with h1 h2 h3
    · exact ih found b h
    · exact ih true b h
    · exact ih found b h
    · rcases List.mem_cons.mp h with heq | hmem
      · subst heq
        exact PgTime.not_lt.mp h1
      · exact ih found b hmem

/-- C6 (amended): on a strictly descending catalog, do_delete without force
never deletes a record after the DATE; and every deleted OK record is
strictly older than the latest OK full backup at or before DATE (so that
boundary full backup itself, and every OK backup newer than it, survive).
Records with status other than OK may be deleted on either side of the
boundary. -/
theorem do_delete_keeps_boundary (dateBegin : PgTime)
    (backup_list : List pgBackup)
    (hsorted : backup_list.Pairwise
      (fun a b => PgTime.lt b.start_time a.start_time)) :
    ∀ b ∈ do_delete dateBegin false backup_list,
      PgTime.le b.start_time dateBegin ∧
      (b.status = BACKUP_STATUS_OK →
        ∃ f, firstFullBoundary dateBegin backup_list = some f ∧
          PgTime.lt b.start_time f.start_time) := by
  unfold do_delete
  induction backup_list with
  | nil => intro b h; cases h
  | cons hd tl ih =>
    rcases List.pairwise_cons.mp hsorted with ⟨hhd, htl⟩
    intro b h
    refine ⟨do_delete_scan_le_date dateBegin false _ _ b h, ?_⟩
    intro hok
    unfold do_delete_scan at h
    split_ifs at h with h1 h2 h3
    · -- hd is after DATE; hd is not the boundary, recurse
      have hnf : ¬(hd.status = BACKUP_STATUS_OK ∧
          BACKUP_MODE_FULL.rank ≤ hd.backup_mode.rank ∧
          PgTime.le hd.start_time dateBegin) := by
        rintro ⟨-, -, hle⟩
        exact PgTime.absurd_lt_le h1 hle
      have hfind : firstFullBoundary dateBegin (hd :: tl) =
          firstFullBoundary dateBegin tl := by
        unfold firstFullBoundary
        apply List.find?_cons_of_neg
        simpa using hnf
      rw [hfind]
      exact ((ih htl) b h).2 hok
    · -- hd is the boundary (OK, mode >= FULL, at or before DATE)
      have hfind : firstFullBoundary dateBegin (hd :: tl) = some hd := by
        unfold firstFullBoundary
        apply List.find?_cons_of_pos
        exact decide_eq_true ⟨h2.2.2, h3, PgTime.not_lt.mp h1⟩
      exact ⟨hd, hfind, hhd b (do_delete_scan_subset dateBegin false tl true b h)⟩
    · -- hd is OK but not full: kept, not the boundary
      have hnf : ¬(hd.status = BACKUP_STATUS_OK ∧
          BACKUP_MODE_FULL.rank ≤ hd.backup_mode.rank ∧
          PgTime.le hd.start_time dateBegin) := by
        rintro ⟨-, hfull, -⟩
        exact h3 hfull
      have hfind : firstFullBoundary dateBegin (hd :: tl) =
          firstFullBoundary dateBegin tl := by
        unfold firstFullBoundary
        apply List.find?_cons_of_neg
        simpa using hnf
      rw [hfind]
      exact ((ih htl) b h).2 hok
    · -- hd is deleted: status is not OK, so hd is not the boundary
      have hnok : ¬(hd.status = BACKUP_STATUS_OK) := by
        intro hc
        exact h2 ⟨not_false, not_false, hc⟩
      rcases List.mem_cons.mp h with heq | hmem
      · subst heq
        exact absurd hok hnok
      · have hfind : firstFullBoundary dateBegin (hd :: tl) =
            firstFullBoundary dateBegin tl := by
          unfold firstFullBoundary
          apply List.find?_cons_of_neg
          simp [hnok]
        rw [hfind]
        exact ((ih htl) b hmem).2 hok

/-- Concrete records for the do_delete theorems. -/
def demoFullKept : pgBackup :=
  { backup_mode := BACKUP_MODE_FULL, status := BACKUP_STATUS_OK,
    tli := 1, start_lsn := 0, stop_lsn := 0,
    start_time := ⟨20250101, 100000⟩, recovery_time := ⟨20250101, 100500⟩,
    recovery_xid := 100 }

/-- An older OK incremental backup, deletable once the boundary was seen. -/
def demoOldIncr : pgBackup :=
  { backup_mode := BACKUP_MODE_INCREMENTAL, status := BACKUP_STATUS_OK,
    tli := 1, start_lsn := 0, stop_lsn := 0,
    start_time := ⟨20240101, 100000⟩, recovery_time := ⟨20240101, 100500⟩,
    recovery_xid := 50 }

/-- An ERROR record newer than the boundary full backup. -/
def demoErrRec : pgBackup :=
  { backup_mode := BACKUP_MODE_INCREMENTAL, status := BACKUP_STATUS_ERROR,
    tli := 1, start_lsn := 0, stop_lsn := 0,
    start_time := ⟨20250301, 100000⟩, recovery_time := ⟨20250301, 100500⟩,
    recovery_xid := 150 }

/-- Witness for do_delete_keeps_boundary: in the catalog [full, older
incremental] the old incremental is deleted and is strictly older than the
boundary full backup. -/
theorem do_delete_keeps_boundary_witness :
    PgTime.le demoOldIncr.start_time ⟨20250601, 0⟩ ∧
    ∃ f, firstFullBoundary ⟨20250601, 0⟩ [demoFullKept, demoOldIncr] = some f ∧
      PgTime.lt demoOldIncr.start_time f.start_time := by
  have h := do_delete_keeps_boundary ⟨20250601, 0⟩ [demoFullKept, demoOldIncr]
    (by decide) demoOldIncr (by decide)
  exact ⟨h.1, h.2 rfl⟩

/-- Counterexample to C6 as stated: an ERROR record taken at or before DATE
and newer than the boundary full backup (hence not beyond it) is still
deleted by do_delete. -/
theorem do_delete_counterexample :
    demoErrRec ∈ do_delete ⟨20250601, 0⟩ false [demoErrRec, demoFullKept] ∧
    firstFullBoundary ⟨20250601, 0⟩ [demoErrRec, demoFullKept] =
      some demoFullKept ∧
    PgTime.lt demoFullKept.start_time demoErrRec.start_time ∧
    PgTime.le demoErrRec.start_time ⟨20250601, 0⟩ := by
  decide

/-! ## Catalog listing (src/catalog.c, catalog_get_backup_list)

The catalog root is a two-level directory tree <root>/YYYYMMDD/HHMMSS/.
catalog_get_backup_list formats the range bounds with strftime("%Y%m%d") and
strftime("%H%M%S") and compares directory entry names against them with
strcmp; under the PgTime encoding those formatted strings are the
zero-padded decimal renderings of the date/time components. -/

/-- Zero-padded decimal rendering of width w (the output of strftime's %Y%m%d
or %H%M%S for the corresponding component). -/
def zeroPadDec (w n : Nat) : List Char :=
  let s := Nat.toDigits 10 n
  List.replicate (w - s.length) '0' ++ s

/-- strftime("%Y%m%d", t): the 8-digit date component. -/
def fmtDate (n : Nat) : List Char := zeroPadDec 8 n

/-- strftime("%H%M%S", t): the 6-digit time component. -/
def fmtTime (n : Nat) : List Char := zeroPadDec 6 n

/-- RESTORE_WORK_DIR, the reserved "backup" subdirectory (src/pg_rman.h:31). -/
def RESTORE_WORK_DIR : List Char := ['b', 'a', 'c', 'k', 'u', 'p']

/-- TIMELINE_HISTORY_DIR, the reserved "timeline_history" subdirectory
(src/pg_rman.h:34). -/
def TIMELINE_HISTORY_DIR : List Char :=
  ['t', 'i', 'm', 'e', 'l', 'i', 'n', 'e', '_',
   'h', 'i', 's', 't', 'o', 'r', 'y']

/-- Test d_name[0] == '.' (dotfile / hidden entry). -/
def isHiddenName : List Char → Bool
  | [] => false
  | c :: _ => c = '.'

/-- pgBackupRange (src/pg_rman.h:85-89); begin_/end_ stand for the C fields
begin/end (the latter is a Lean keyword). -/
structure pgBackupRange where
  begin_ : PgTime
  end_ : PgTime
deriving DecidableEq, Repr

/-- The (time_t) 0 instant under the PgTime encoding (its UTC rendering;
only equality with it matters, for pgBackupRangeIsValid). -/
def epochTime : PgTime := ⟨19700101, 0⟩

/-- pgBackupRangeIsValid (src/pg_rman.h:106-107). -/
def pgBackupRangeIsValid (r : pgBackupRange) : Bool :=
  !(r.begin_ = epochTime) || !(r.end_ = epochTime)

/-- A second-level (HHMMSS) directory entry of the catalog.  record is the
result of catalog_read_ini on its backup.ini: none when the file is missing
or unreadable (such records are silently dropped). -/
structure TimeDirEnt where
  name : List Char
  isDir : Bool
  record : Option pgBackup
deriving DecidableEq, Repr

/-- A first-level (YYYYMMDD) directory entry of the catalog. -/
structure DateDirEnt where
  name : List Char
  isDir : Bool
  subs : List TimeDirEnt
deriving DecidableEq, Repr

/-- Selection test applied to a first-level entry by the outer loop of
catalog_get_backup_list (src/catalog.c:175-196): a directory, not hidden,
not a reserved subdirectory, and (for a valid range) with name between the
formatted begin and end dates. -/
def dateDirSelected (r : pgBackupRange) (d : DateDirEnt) : Bool :=
  d.isDir && !isHiddenName d.name &&
  !(d.name = RESTORE_WORK_DIR) && !(d.name = TIMELINE_HISTORY_DIR) &&
  !(pgBackupRangeIsValid r &&
    (strcmpLt d.name (fmtDate r.begin_.date) ||
     strcmpLt (fmtDate r.end_.date) d.name))

/-- Selection test applied to a second-level entry by the inner loop of
catalog_get_backup_list (src/catalog.c:204-216): a directory, not hidden,
and (for a valid range) with name between the formatted begin and end
times of day. -/
def timeDirSelected (r : pgBackupRange) (t : TimeDirEnt) : Bool :=
  t.isDir && !isHiddenName t.name &&
  !(pgBackupRangeIsValid r &&
    (strcmpLt t.name (fmtTime r.begin_.time) ||
     strcmpLt (fmtTime r.end_.time) t.name))

/-- Collection and sort of catalog_get_backup_list for an explicit range
(src/catalog.c:173-248): selected date directories, within them selected
time directories, their parseable backup.ini records, sorted by
pgBackupCompareIdDesc. -/
def catalog_list_range (root : List DateDirEnt) (r : pgBackupRange) :
    List pgBackup :=
  ((root.filter (dateDirSelected r)).flatMap
    (fun d => (d.subs.filter (timeDirSelected r)).filterMap
      (fun t => t.record))).insertionSort backupIdDesc

/-- Embedding of catalog_get_backup_list (src/catalog.c:136-263).  A NULL
range behaves as the all-zero range_all, which pgBackupRangeIsValid rejects,
so no name filtering happens. -/
def catalog_get_backup_list (root : List DateDirEnt)
    (range : Option pgBackupRange) : List pgBackup :=
  catalog_list_range root
    (range.getD { begin_ := epochTime, end_ := epochTime })

/-- C5 (amended): catalog_get_backup_list returns exactly the parseable
records of the selected date/time subdirectories — reserved subdirectories
and dotfiles excluded, unreadable records dropped, and for a valid range the
date-directory name compared against the formatted begin/end dates and the
time-directory name compared against the formatted begin/end times of day —
sorted descending (not necessarily strictly) by start_time. -/
theorem catalog_get_backup_list_spec (root : List DateDirEnt)
    (range : Option pgBackupRange) :
    (∀ rec, rec ∈ catalog_get_backup_list root range ↔
      ∃ d ∈ root,
        dateDirSelected (range.getD { begin_ := epochTime, end_ := epochTime })
          d = true ∧
        ∃ t ∈ d.subs,
          timeDirSelected (range.getD { begin_ := epochTime, end_ := epochTime })
            t = true ∧
          t.record = some rec) ∧
    (catalog_get_backup_list root range).Sorted backupIdDesc := by
  constructor
  · intro rec
    unfold catalog_get_backup_list catalog_list_range
    rw [(List.perm_insertionSort backupIdDesc _).mem_iff]
    simp only [List.mem_flatMap, List.mem_filter, List.mem_filterMap]
    constructor
    · rintro ⟨d, ⟨hd, hsel⟩, t, ⟨ht, htsel⟩, hrec⟩
      exact ⟨d, hd, hsel, t, ht, htsel, hrec⟩
    · rintro ⟨d, hd, hsel, t, ht, htsel, hrec⟩
      exact ⟨d, ⟨hd, hsel⟩, t, ⟨ht, htsel⟩, hrec⟩
  · unfold catalog_get_backup_list catalog_list_range
    exact List.sorted_insertionSort backupIdDesc _

/-- Witness for catalog_get_backup_list_spec, applied below at a concrete
catalog after its demo records are defined. -/
theorem catalog_get_backup_list_spec_sorted_witness :
    (catalog_get_backup_list [] none).Sorted backupIdDesc :=
  (catalog_get_backup_list_spec [] none).2

/-- Record whose wall-clock start (2025-01-11 00:30:00) lies inside the
demo range but whose time-of-day string falls outside the begin/end
time-of-day window. -/
def demoRec5 : pgBackup :=
  { backup_mode := BACKUP_MODE_FULL, status := BACKUP_STATUS_OK,
    tli := 1, start_lsn := 0, stop_lsn := 0,
    start_time := ⟨20250111, 3000⟩, recovery_time := ⟨20250111, 3500⟩,
    recovery_xid := 11 }

/-- Time directory 003000 of the demo catalog, holding demoRec5. -/
def demoTimeEnt5 : TimeDirEnt :=
  { name := ['0', '0', '3', '0', '0', '0'], isDir := true,
    record := some demoRec5 }

/-- Date directory 20250111 of the demo catalog. -/
def demoDateEnt5 : DateDirEnt :=
  { name := ['2', '0', '2', '5', '0', '1', '1', '1'], isDir := true,
    subs := [demoTimeEnt5] }

/-- Demo catalog with a single record keyed 20250111/003000. -/
def demoCatalog5 : List DateDirEnt := [demoDateEnt5]

/-- Range 2025-01-10 23:00:00 .. 2025-01-11 01:00:00. -/
def demoRange5 : pgBackupRange :=
  { begin_ := ⟨20250110, 230000⟩, end_ := ⟨20250111, 10000⟩ }

/-- Two parseable records sharing a start_time (their backup.ini contents
declare the same START_TIME although they live in distinct directories). -/
def demoRecDupA : pgBackup :=
  { backup_mode := BACKUP_MODE_FULL, status := BACKUP_STATUS_OK,
    tli := 1, start_lsn := 0, stop_lsn := 0,
    start_time := ⟨20250111, 3000⟩, recovery_time := ⟨20250111, 3500⟩,
    recovery_xid := 21 }

/-- Second record of the duplicate-start_time pair. -/
def demoRecDupB : pgBackup :=
  { backup_mode := BACKUP_MODE_FULL, status := BACKUP_STATUS_OK,
    tli := 1, start_lsn := 0, stop_lsn := 0,
    start_time := ⟨20250111, 3000⟩, recovery_time := ⟨20250111, 3500⟩,
    recovery_xid := 22 }

/-- Catalog holding the duplicate-start_time pair in sibling directories. -/
def demoCatalogDup : List DateDirEnt :=
  [{ name := ['2', '0', '2', '5', '0', '1', '1', '1'], isDir := true,
     subs := [{ name := ['0', '0', '3', '0', '0', '0'], isDir := true,
                record := some demoRecDupA },
              { name := ['0', '0', '3', '0', '0', '1'], isDir := true,
                record := some demoRecDupB }] }]

/-- Counterexample to C5 as stated: (a) a parseable, non-reserved,
non-hidden record whose start_time lies within the range — and whose
directory names are exactly the formatted components of that start_time —
is not returned, because the begin/end time-of-day window is applied inside
every selected date directory; (b) two distinct returned records can share
a start_time. -/
theorem catalog_get_backup_list_counterexample :
    (demoDateEnt5 ∈ demoCatalog5 ∧ demoDateEnt5.isDir = true ∧
     isHiddenName demoDateEnt5.name = false ∧
     demoDateEnt5.name ≠ RESTORE_WORK_DIR ∧
     demoDateEnt5.name ≠ TIMELINE_HISTORY_DIR ∧
     demoTimeEnt5 ∈ demoDateEnt5.subs ∧ demoTimeEnt5.isDir = true ∧
     isHiddenName demoTimeEnt5.name = false ∧
     demoTimeEnt5.record = some demoRec5 ∧
     demoDateEnt5.name = fmtDate demoRec5.start_time.date ∧
     demoTimeEnt5.name = fmtTime demoRec5.start_time.time) ∧
    (PgTime.le demoRange5.begin_ demoRec5.start_time ∧
     PgTime.le demoRec5.start_time demoRange5.end_) ∧
    demoRec5 ∉ catalog_get_backup_list demoCatalog5 (some demoRange5) ∧
    (demoRecDupA ∈ catalog_get_backup_list demoCatalogDup none ∧
     demoRecDupB ∈ catalog_get_backup_list demoCatalogDup none ∧
     demoRecDupA ≠ demoRecDupB ∧
     demoRecDupA.start_time = demoRecDupB.start_time) := by
  decide

/-! ## Order facts about strcmp, needed for the path-sorted file lists. -/

theorem strcmpLt_irrefl : ∀ a, strcmpLt a a = false
  | [] => rfl
  | c :: cs => by
    unfold strcmpLt
    rw [if_neg (lt_irrefl c), if_neg (lt_irrefl c)]
    exact strcmpLt_irrefl cs

theorem strcmpLt_trans : ∀ {a b c : List Char},
    strcmpLt a b = true → strcmpLt b c = true → strcmpLt a c = true := by
  intro a
  induction a with
  | nil =>
    intro b c h1 h2
    cases b with
    | nil => simp [strcmpLt] at h1
    | cons y ys =>
      cases c with
      | nil => simp [strcmpLt] at h2
      | cons z zs => rfl
  | cons x xs ih =>
    intro b c h1 h2
    cases b with
    | nil => simp [strcmpLt] at h1
    | cons y ys =>
      cases c with
      | nil => simp [strcmpLt] at h2
      | cons z zs =>
        unfold strcmpLt at h1 h2 ⊢
        by_cases hxy : x < y
        · by_cases hyz : y < z
          · rw [if_pos (lt_trans hxy hyz)]
          · rw [if_neg hyz] at h2
            by_cases hzy : z < y
            · rw [if_pos hzy] at h2; cases h2
            · have hyz' : y = z := le_antisymm (not_lt.mp hzy) (not_lt.mp hyz)
              rw [if_pos (hyz' ▸ hxy)]
        · rw [if_neg hxy] at h1
          by_cases hyx : y < x
          · rw [if_pos hyx] at h1; cases h1
          · rw [if_neg hyx] at h1
            have hxy' : x = y := le_antisymm (not_lt.mp hyx) (not_lt.mp hxy)
            rw [hxy']
            by_cases hyz : y < z
            · rw [if_pos hyz]
            · rw [if_neg hyz] at h2 ⊢
              by_cases hzy : z < y
              · rw [if_pos hzy] at h2; cases h2
              · rw [if_neg hzy] at h2 ⊢
                exact ih h1 h2

theorem strcmpLt_conn : ∀ {a b : List Char},
    strcmpLt a b = false → strcmpLt b a = false → a = b := by
  intro a
  induction a with
  | nil =>
    intro b h1 _
    cases b with
    | nil => rfl
    | cons y ys => simp [strcmpLt] at h1
  | cons x xs ih =>
    intro b h1 h2
    cases b with
    | nil => simp [strcmpLt] at h2
    | cons y ys =>
      unfold strcmpLt at h1 h2
      by_cases hxy : x < y
      · rw [if_pos hxy] at h1; cases h1
      · by_cases hyx : y < x
        · rw [if_pos hyx] at h2; cases h2
        · rw [if_neg hxy, if_neg hyx] at h1
          rw [if_neg hyx, if_neg hxy] at h2
          have hxy' : x = y := le_antisymm (not_lt.mp hyx) (not_lt.mp hxy)
          rw [hxy', ih h1 h2]

theorem strcmpLt_eq_false {a b : List Char} (h : strcmpLt a b = true) :
    strcmpLt b a = false := by
  cases hba : strcmpLt b a
  · rfl
  · have := strcmpLt_trans h hba
    rw [strcmpLt_irrefl] at this
    cases this

theorem strcmpLe_total (a b : List Char) :
    strcmpLe a b = true ∨ strcmpLe b a = true := by
  unfold strcmpLe
  cases hba : strcmpLt b a
  · left; rfl
  · right
    rw [strcmpLt_eq_false hba]
    rfl

theorem strcmpLe_trans {a b c : List Char} (h1 : strcmpLe a b = true)
    (h2 : strcmpLe b c = true) : strcmpLe a c = true := by
  unfold strcmpLe at *
  have h1' : strcmpLt b a = false := by
    cases h : strcmpLt b a
    · rfl
    · rw [h] at h1; cases h1
  have h2' : strcmpLt c b = false := by
    cases h : strcmpLt c b
    · rfl
    · rw [h] at h2; cases h2
  cases hca : strcmpLt c a
  · rfl
  · exfalso
    by_cases hab : strcmpLt a b = true
    · have := strcmpLt_trans hca hab
      rw [h2'] at this
      cases this
    · have hab' : strcmpLt a b = false := by
        cases h : strcmpLt a b
        · rfl
        · exact absurd h hab
      have heq : a = b := strcmpLt_conn hab' h1'
      subst heq
      rw [h2'] at hca
      cases hca

/-! ## File lists (src/dir.c, src/pg_rman.h pgFile)

A pgFile restricted to the fields the restore-side claims consult: the
absolute path and the manifest write_size (BYTES_INVALID = -1 marks an entry
that was present in the source but not copied). -/

/-- BYTES_INVALID (src/pg_rman.h:200). -/
def BYTES_INVALID : Int := -1

structure pgFileEnt where
  path : List Char
  write_size : Int
deriving DecidableEq, Repr

/-- Sort relation of pgFileComparePathDesc (src/dir.c:219-223): descending
by path in strcmp order. -/
def pathDesc (a b : pgFileEnt) : Prop :=
  strcmpLe b.path a.path = true

instance (a b : pgFileEnt) : Decidable (pathDesc a b) := by
  unfold pathDesc; infer_instance

instance : IsTotal pgFileEnt pathDesc :=
  ⟨fun a b => (strcmpLe_total b.path a.path).elim Or.inl Or.inr⟩

instance : IsTrans pgFileEnt pathDesc :=
  ⟨fun _ _ _ h1 h2 => strcmpLe_trans h2 h1⟩

/-- Modelled from the spec: parray.c is not under src/.  parray_bsearch runs
a binary search over the comparator-sorted array and returns an element that
compares equal to the probe (for pgFileComparePathDesc: one with the same
path) when present, NULL otherwise; it is modelled extensionally. -/
def parray_bsearch_path (files : List pgFileEnt) (f : pgFileEnt) :
    Option pgFileEnt :=
  files.find? (fun g => g.path = f.path)

/-! ## Deletion of unlisted files after restore (src/restore.c,
restore_database:578-611)

After restoring a backup's files, restore_database re-reads the backup's
file_database.txt with root pgdata (keeping entries with
write_size = BYTES_INVALID), sorts it descending by path, lists the files
now present under pgdata (outside the excluded directories), sorts those
descending by path, and deletes every on-disk file that has no manifest
entry with the same path. -/

/-- Embedding of the cleanup phase of restore_database: return the files
passed to pgFileDelete, in deletion order.  manifest is the re-read
file_database.txt; files_now the on-disk listing of pgdata. -/
def restore_database_cleanup (manifest : List pgFileEnt)
    (files_now : List pgFileEnt) : List pgFileEnt :=
  let files := manifest.insertionSort pathDesc
  let now := files_now.insertionSort pathDesc
  now.filter (fun f => (parray_bsearch_path files f).isNone)

/-- C9: restore_database deletes exactly the on-disk files that have no
manifest entry with the same path (entries with write_size = BYTES_INVALID
remain listed, so matching files survive), and the deletion order is
descending by path (leaf first). -/
theorem restore_database_cleanup_spec (manifest files_now : List pgFileEnt) :
    (∀ f, f ∈ restore_database_cleanup manifest files_now ↔
      (f ∈ files_now ∧ ∀ m ∈ manifest, ¬(m.path = f.path))) ∧
    (restore_database_cleanup manifest files_now).Sorted pathDesc := by
  constructor
  · intro f
    unfold restore_database_cleanup parray_bsearch_path
    rw [List.mem_filter]
    rw [(List.perm_insertionSort pathDesc files_now).mem_iff]
    constructor
    · rintro ⟨hmem, hnone⟩
      refine ⟨hmem, ?_⟩
      intro m hm hpath
      rw [Option.isNone_iff_eq_none, List.find?_eq_none] at hnone
      exact hnone m ((List.perm_insertionSort pathDesc manifest).mem_iff.mpr hm)
        (decide_eq_true hpath)
    · rintro ⟨hmem, hno⟩
      refine ⟨hmem, ?_⟩
      rw [Option.isNone_iff_eq_none, List.find?_eq_none]
      intro m hm hdec
      exact hno m ((List.perm_insertionSort pathDesc manifest).mem_iff.mp hm)
        (of_decide_eq_true hdec)
  · unfold restore_database_cleanup
    exact List.Pairwise.filter _ (List.sorted_insertionSort pathDesc files_now)

/-! ## Restore-destination wipe and base-backup selection (src/restore.c,
do_restore)

do_restore first searches the descending catalog for the newest OK full
backup that satisfies the target timeline and the recovery target; only if
one is found does it clear the restore destination.  The clearing loop,
however, reads its elements with the stale index i of the backup search
instead of its own counter x (src/restore.c:283-287). -/

/-- pgRecoveryTarget (src/pg_rman.h:215-222), the fields the selection
predicates consult. -/
structure pgRecoveryTarget where
  time_specified : Bool
  recovery_target_time : PgTime
  xid_specified : Bool
  recovery_target_xid : Nat
deriving DecidableEq, Repr

/-- pgTimeLine (src/pg_rman.h:209-213); end_ stands for the C field end. -/
structure pgTimeLine where
  tli : Nat
  end_ : Nat
deriving DecidableEq, Repr

/-- Embedding of satisfy_recovery_target (src/restore.c:1240-1284). -/
def satisfy_recovery_target (b : pgBackup) (rt : pgRecoveryTarget) : Bool :=
  if rt.xid_specified then
    b.recovery_xid ≤ rt.recovery_target_xid
  else if rt.time_specified then
    PgTime.le b.recovery_time rt.recovery_target_time
  else
    true

/-- Embedding of satisfy_timeline (src/restore.c:1286-1305). -/
def satisfy_timeline (timelines : List pgTimeLine) (b : pgBackup) : Bool :=
  timelines.any (fun tl => b.tli = tl.tli && b.stop_lsn < tl.end_)

/-- Base-backup search of do_restore (src/restore.c:223-249): index of the
first catalog entry (descending order) that is an OK backup of mode >= FULL
satisfying the target timeline and recovery target. -/
def find_base_backup_index (backups : List pgBackup)
    (timelines : List pgTimeLine) (rt : pgRecoveryTarget) : Option Nat :=
  backups.findIdx? (fun b =>
    BACKUP_MODE_FULL.rank ≤ b.backup_mode.rank ∧
    b.status = BACKUP_STATUS_OK ∧
    satisfy_timeline timelines b = true ∧
    satisfy_recovery_target b rt = true)

/-- Embedding of the destination-clearing loop of do_restore
(src/restore.c:271-290): the pgdata listing is sorted descending by path,
then the loop runs parray_num(files) times with counter x but fetches
parray_get(files, i) — i being the index left by the base-backup search —
so every iteration deletes the same element (out-of-range fetches reach
parray.c, which is not under src/, and delete nothing meaningful).  The
returned list holds the files passed to pgFileDelete in order. -/
def clear_restore_destination (i : Nat) (pgdataFiles : List pgFileEnt) :
    List pgFileEnt :=
  let files := pgdataFiles.insertionSort pathDesc
  (List.range files.length).filterMap (fun _ => files.get? i)

/-- Selection-then-wipe phase of do_restore: none when no base backup
satisfies the target (ERROR_NO_BACKUP, destination untouched); otherwise
the deletions of the clearing loop, run with the index of the found base. -/
def do_restore_wipe (backups : List pgBackup) (timelines : List pgTimeLine)
    (rt : pgRecoveryTarget) (pgdataFiles : List pgFileEnt) :
    Option (List pgFileEnt) :=
  match find_base_backup_index backups timelines rt with
  | none => none
  | some i => some (clear_restore_destination i pgdataFiles)

/-- Manifest entry for path a, recorded as skipped (BYTES_INVALID). -/
def demoManifestA : pgFileEnt := { path := ['a'], write_size := BYTES_INVALID }

/-- Witness for restore_database_cleanup_spec: with a manifest holding only
the (skipped) entry a, the on-disk file b is deleted. -/
theorem restore_database_cleanup_spec_witness :
    { path := ['b'], write_size := (0 : Int) } ∈
      restore_database_cleanup [demoManifestA]
        [{ path := ['a'], write_size := 0 }, { path := ['b'], write_size := 0 }] :=
  ((restore_database_cleanup_spec [demoManifestA]
      [{ path := ['a'], write_size := 0 }, { path := ['b'], write_size := 0 }]).1
    { path := ['b'], write_size := 0 }).mpr ⟨by decide, by decide⟩

/-- Newest catalog entry of the C1 demo: an OK incremental (skipped by the
base search). -/
def demoIncr1 : pgBackup :=
  { backup_mode := BACKUP_MODE_INCREMENTAL, status := BACKUP_STATUS_OK,
    tli := 1, start_lsn := 0, stop_lsn := 100,
    start_time := ⟨20250201, 100000⟩, recovery_time := ⟨20250201, 100500⟩,
    recovery_xid := 60 }

/-- The OK full backup found at index 1 of the C1 demo catalog. -/
def demoBase1 : pgBackup :=
  { backup_mode := BACKUP_MODE_FULL, status := BACKUP_STATUS_OK,
    tli := 1, start_lsn := 0, stop_lsn := 90,
    start_time := ⟨20250101, 100000⟩, recovery_time := ⟨20250101, 100500⟩,
    recovery_xid := 40 }

/-- Timeline list accepting timeline 1 up to LSN 1000. -/
def demoTimelines1 : List pgTimeLine := [⟨1, 1000⟩]

/-- Recovery target with neither time nor xid specified. -/
def demoRT1 : pgRecoveryTarget :=
  { time_specified := false, recovery_target_time := ⟨0, 0⟩,
    xid_specified := false, recovery_target_xid := 0 }

/-- Recovery target whose xid bound no demo backup satisfies. -/
def demoRTNone : pgRecoveryTarget :=
  { time_specified := false, recovery_target_time := ⟨0, 0⟩,
    xid_specified := true, recovery_target_xid := 10 }

/-- File a of the demo destination. -/
def demoFileA : pgFileEnt := { path := ['a'], write_size := 0 }

/-- File b of the demo destination. -/
def demoFileB : pgFileEnt := { path := ['b'], write_size := 0 }

/-- File c of the demo destination. -/
def demoFileC : pgFileEnt := { path := ['c'], write_size := 0 }

/-- C1 (code bug, src/restore.c:283-287): with the base backup found at
catalog index 1 and three files a, b, c under pgdata, the clearing loop
deletes the file at index 1 of the descending listing [c, b, a] — b — three
times, and never deletes a or c; had no base backup satisfied the target,
nothing would have been deleted at all. -/
theorem do_restore_wipe_code_bug :
    find_base_backup_index [demoIncr1, demoBase1] demoTimelines1 demoRT1 =
      some 1 ∧
    do_restore_wipe [demoIncr1, demoBase1] demoTimelines1 demoRT1
      [demoFileA, demoFileB, demoFileC] =
      some [demoFileB, demoFileB, demoFileB] ∧
    demoFileA ∈ [demoFileA, demoFileB, demoFileC] ∧
    demoFileA ∉ [demoFileB, demoFileB, demoFileB] ∧
    demoFileC ∈ [demoFileA, demoFileB, demoFileC] ∧
    demoFileC ∉ [demoFileB, demoFileB, demoFileB] ∧
    do_restore_wipe [demoIncr1, demoBase1] demoTimelines1 demoRTNone
      [demoFileA, demoFileB, demoFileC] = none := by
  decide

/-! ## Data-file backup and restore (src/data.c, backup_data_file and
restore_data_file; uncompressed paths)

The source data file is a sequence of whole BLCKSZ blocks, possibly
followed by a short tail of 0 < tailLen < BLCKSZ bytes (a page being
written at copy time).  The backup stream is a sequence of records, each a
BackupPageHeader followed by content_len bytes of page image; the byte
values themselves are not tracked, only the structure and all sizes. -/

/-- sizeof(BackupPageHeader) on the host the sources target (x86-64):
uint32 block, two uint16 hole fields, bool endpoint, padded to 12 bytes. -/
def sizeofBackupPageHeader : Nat := 12

/-- BackupPageHeader (src/pg_rman.h:95-103). -/
structure BackupPageHeader where
  block : Nat
  hole_offset : Nat
  hole_length : Nat
  endpoint : Bool
deriving DecidableEq, Repr

/-- One record of the backup stream: a header followed by content_len bytes
of page image (the page minus its hole).  For the endpoint sentinel no
content follows; its hole fields are stale on the C side and unread by
restore, modelled as 0. -/
structure BackupRecord where
  header : BackupPageHeader
  content_len : Nat
deriving DecidableEq, Repr

/-- A source data file: whole blocks plus a short tail (0 means no tail). -/
structure SrcDataFile where
  blocks : List DataPage
  tailLen : Nat
deriving Repr

/-- Running totals of backup_data_file: records written so far and the
read_size/write_size counters of the pgFile. -/
structure BdfState where
  records : List BackupRecord
  read_size : Nat
  write_size : Nat
deriving DecidableEq, Repr

/-- One iteration of the block loop of backup_data_file (src/data.c:351-438),
uncompressed: parse the page (none = fall through to copy_file), count the
read, skip the block when it predates since_lsn, otherwise emit its header
followed by the non-hole image (BLCKSZ - hole_length bytes). -/
def bdfStep (lsn : Option Nat) (prev_file_not_found : Bool) (blknum : Nat)
    (page : DataPage) (st : BdfState) : Option BdfState :=
  if (parse_page blknum page).recognized = true then
    if ¬(prev_file_not_found = true) ∧ lsn.isSome = true ∧
       ¬(XLogRecPtrIsInvalid (parse_page blknum page).lsn = true) ∧
       (parse_page blknum page).lsn < lsn.getD 0 then
      some { st with read_size := st.read_size + BLCKSZ }
    else
      some { st with
        read_size := st.read_size + BLCKSZ,
        records := st.records ++
          [⟨⟨blknum, (parse_page blknum page).hole_offset,
             (parse_page blknum page).hole_length, false⟩,
            BLCKSZ - (parse_page blknum page).hole_length⟩],
        write_size := st.write_size +
          (sizeofBackupPageHeader +
            (BLCKSZ - (parse_page blknum page).hole_length)) }
  else
    none

/-- The block loop of backup_data_file: none when some page failed to parse
(the whole file falls back to copy_file); otherwise the block count and the
final totals. -/
def bdfLoop (lsn : Option Nat) (prev_file_not_found : Bool) :
    List DataPage → Nat → BdfState → Option (Nat × BdfState)
  | [], blknum, st => some (blknum, st)
  | page :: rest, blknum, st =>
    match bdfStep lsn prev_file_not_found blknum page st with
    | none => none
    | some st' => bdfLoop lsn prev_file_not_found rest (blknum + 1) st'

/-- Odd-tail handling of backup_data_file (src/data.c:453-516): a short read
after block 0 gets a header with no hole followed by the tail bytes; a short
read at block 0 writes the tail bytes raw (and the caller demotes the file
to not-a-datafile); both count the tail into read_size. -/
def bdfOddTail (tailLen blknum : Nat) (st0 : BdfState) : BdfState :=
  if 0 < tailLen ∧ blknum ≠ 0 then
    { st0 with
      records := st0.records ++ [⟨⟨blknum, 0, 0, false⟩, tailLen⟩],
      write_size := st0.write_size + (sizeofBackupPageHeader + tailLen),
      read_size := st0.read_size + tailLen }
  else if 0 < tailLen then
    { st0 with
      write_size := st0.write_size + tailLen,
      read_size := st0.read_size + tailLen }
  else
    st0

/-- Endpoint sentinel of backup_data_file (src/data.c:526-555): in
incremental mode append a header with endpoint = true and
block = ++blknum (one past the count of whole blocks read). -/
def bdfEndpoint (backup_mode : BackupMode) (blknum : Nat)
    (st1 : BdfState) : BdfState :=
  if backup_mode = BACKUP_MODE_INCREMENTAL then
    { st1 with
      records := st1.records ++ [⟨⟨blknum + 1, 0, 0, true⟩, 0⟩],
      write_size := st1.write_size + sizeofBackupPageHeader }
  else
    st1

/-- Outcome of backup_data_file.  fallbackToCopy: a page failed to parse and
the whole file is re-copied by copy_file as a plain file.  done: the stream
was written; oddRaw is the number of raw tail bytes written without a header
(short read at block 0); removed records whether the output file was removed
again; returned is the function's return value (false = file skipped). -/
inductive BdfOutcome where
  | fallbackToCopy
  | done (records : List BackupRecord) (oddRaw : Nat)
         (read_size write_size : Nat) (is_datafile removed returned : Bool)
deriving DecidableEq, Repr

/-- Tail of backup_data_file (src/data.c:607-625): demote an empty file to
not-a-datafile, and remove the output (returning false: skipped) when
nothing was written although the source had content. -/
def bdfFinal (oddRaw : Nat) (is_df1 : Bool) (st2 : BdfState) : BdfOutcome :=
  if st2.write_size = 0 ∧ 0 < st2.read_size then
    .done st2.records oddRaw st2.read_size st2.write_size
      (if st2.read_size = 0 then false else is_df1) true false
  else
    .done st2.records oddRaw st2.read_size st2.write_size
      (if st2.read_size = 0 then false else is_df1) false true

/-- Embedding of backup_data_file (src/data.c:257-626), uncompressed and
outside check mode, assembled from the block loop, the odd-tail handling,
the endpoint sentinel and the final checks. -/
def backup_data_file (src : SrcDataFile) (lsn : Option Nat)
    (backup_mode : BackupMode) (prev_file_not_found : Bool) : BdfOutcome :=
  match bdfLoop lsn prev_file_not_found src.blocks 0 ⟨[], 0, 0⟩ with
  | none => .fallbackToCopy
  | some (blknum, st0) =>
    bdfFinal
      (if 0 < src.tailLen ∧ blknum = 0 then src.tailLen else 0)
      (!decide (0 < src.tailLen ∧ blknum = 0))
      (bdfEndpoint backup_mode blknum (bdfOddTail src.tailLen blknum st0))

/-- Result of restore_data_file on a data file: the final destination size,
or the ERROR_CORRUPTED failure of the header sanity check. -/
inductive RdfResult where
  | ok (size : Nat)
  | corrupted
deriving DecidableEq, Repr

/-- Embedding of the record loop of restore_data_file (src/data.c:709-849),
uncompressed, on a data file: read records until EOF; an endpoint record
truncates the destination to (block - 1) * BLCKSZ and stops; otherwise the
header is sanity-checked, the page is zero-filled at its hole and written
whole at offset block * BLCKSZ (the destination, opened "r+" with fallback
"w", keeps its previous bytes where nothing is written). -/
def restore_data_file : List BackupRecord → Nat → Nat → RdfResult
  | [], _, size => .ok size
  | r :: rest, blknum, size =>
    if r.header.endpoint = true then
      .ok ((r.header.block - 1) * BLCKSZ)
    else if r.header.block < blknum ∨ BLCKSZ < r.header.hole_offset ∨
            BLCKSZ < r.header.hole_offset + r.header.hole_length then
      .corrupted
    else
      restore_data_file rest (r.header.block + 1)
        (max size (r.header.block * BLCKSZ + BLCKSZ))

/-- Unfolding equation for restore_data_file on a cons stream. -/
theorem restore_data_file_cons (r : BackupRecord) (rest : List BackupRecord)
    (blknum size : Nat) :
    restore_data_file (r :: rest) blknum size =
      if r.header.endpoint = true then
        .ok ((r.header.block - 1) * BLCKSZ)
      else if r.header.block < blknum ∨ BLCKSZ < r.header.hole_offset ∨
              BLCKSZ < r.header.hole_offset + r.header.hole_length then
        .corrupted
      else
        restore_data_file rest (r.header.block + 1)
          (max size (r.header.block * BLCKSZ + BLCKSZ)) := rfl

/-- Unfolding equation for bdfLoop on a cons block list. -/
theorem bdfLoop_cons (lsn : Option Nat) (prev : Bool) (page : DataPage)
    (rest : List DataPage) (blknum : Nat) (st : BdfState) :
    bdfLoop lsn prev (page :: rest) blknum st =
      match bdfStep lsn prev blknum page st with
      | none => none
      | some st' => bdfLoop lsn prev rest (blknum + 1) st' := rfl

/-- The lsn out-parameter of parse_page is the page LSN in every branch. -/
theorem parse_page_lsn (blkno : Nat) (page : DataPage) :
    (parse_page blkno page).lsn = page.pd_lsn := by
  unfold parse_page
  split_ifs <;> rfl

/-- C3: (a) a block whose page header parses as valid contributes nothing to
the output (neither a record nor write_size; only read_size grows by BLCKSZ)
when since_lsn is provided, prev_file_not_found is false, and the page LSN
is valid and strictly below since_lsn; (b) whenever backup_data_file
finishes its stream with write_size = 0 but read_size > 0, the output file
is removed and the file is reported as skipped (return value false). -/
theorem backup_data_file_lsn_filter :
    (∀ (since_lsn : Nat) (blknum : Nat) (page : DataPage) (st : BdfState),
      (parse_page blknum page).recognized = true →
      page.pd_lsn ≠ 0 →
      page.pd_lsn < since_lsn →
      bdfStep (some since_lsn) false blknum page st =
        some { st with read_size := st.read_size + BLCKSZ }) ∧
    (∀ (src : SrcDataFile) (lsn : Option Nat) (backup_mode : BackupMode)
       (prev_file_not_found : Bool) (recs : List BackupRecord)
       (oddRaw rs ws : Nat) (df rm ret : Bool),
      backup_data_file src lsn backup_mode prev_file_not_found =
        .done recs oddRaw rs ws df rm ret →
      ws = 0 → 0 < rs → rm = true ∧ ret = false) := by
  constructor
  · intro since_lsn blknum page st hrec hvalid hlt
    unfold bdfStep
    rw [if_pos hrec, if_pos ?hc]
    case hc =>
      refine ⟨by simp, rfl, ?_, ?_⟩
      · rw [parse_page_lsn]
        simp only [XLogRecPtrIsInvalid]
        simpa using hvalid
      · rw [parse_page_lsn]
        simpa using hlt
  · intro src lsn backup_mode prev recs oddRaw rs ws df rm ret h hws hrs
    unfold backup_data_file at h
    split at h
    · cases h
    · unfold bdfFinal at h
      split_ifs at h with hcond <;> cases h <;>
        first
          | exact ⟨rfl, rfl⟩
          | exact absurd ⟨hws, hrs⟩ hcond

/-- A page whose LSN (5) predates the demo since_lsn. -/
def demoStalePage : DataPage :=
  { pd_lsn := 5, pd_checksum := 0, pd_flags := 0,
    pd_lower := 40, pd_upper := 8000, pd_special := 8192,
    pd_pagesize_version := 8196,
    ginVersion := 0, brinVersion := 0, brinMagic := 0, spgistMagic := 0 }

/-- Witness for backup_data_file_lsn_filter: a valid page with LSN 5 below
since_lsn 10 only bumps read_size. -/
theorem backup_data_file_lsn_filter_witness :
    bdfStep (some 10) false 0 demoStalePage ⟨[], 0, 0⟩ =
      some { records := [], read_size := 0 + BLCKSZ, write_size := 0 } :=
  backup_data_file_lsn_filter.1 10 0 demoStalePage ⟨[], 0, 0⟩
    (by decide) (by decide) (by decide)

/-! ## Incremental endpoint and restore truncation (C2) -/

/-- Every block of the list, numbered from k, parses as a valid page. -/
def allValidFrom : Nat → List DataPage → Prop
  | _, [] => True
  | k, p :: rest => (parse_page k p).recognized = true ∧ allValidFrom (k + 1) rest

instance allValidFrom.dec (k : Nat) (l : List DataPage) :
    Decidable (allValidFrom k l) :=
  match l with
  | [] => .isTrue trivial
  | _ :: rest => @instDecidableAnd _ _ _ (allValidFrom.dec (k + 1) rest)

/-- The records the block loop emits for blocks numbered from k: one header
and non-hole image per block, minus the blocks skipped by the LSN filter. -/
def emitted (lsn : Option Nat) (prev_file_not_found : Bool) :
    Nat → List DataPage → List BackupRecord
  | _, [] => []
  | k, p :: rest =>
    if ¬(prev_file_not_found = true) ∧ lsn.isSome = true ∧
       ¬(XLogRecPtrIsInvalid (parse_page k p).lsn = true) ∧
       (parse_page k p).lsn < lsn.getD 0 then
      emitted lsn prev_file_not_found (k + 1) rest
    else
      ⟨⟨k, (parse_page k p).hole_offset, (parse_page k p).hole_length, false⟩,
        BLCKSZ - (parse_page k p).hole_length⟩ ::
        emitted lsn prev_file_not_found (k + 1) rest

/-- Unfolding equation for emitted on a cons block list. -/
theorem emitted_cons (lsn : Option Nat) (prev : Bool) (k : Nat)
    (p : DataPage) (rest : List DataPage) :
    emitted lsn prev k (p :: rest) =
      if ¬(prev = true) ∧ lsn.isSome = true ∧
         ¬(XLogRecPtrIsInvalid (parse_page k p).lsn = true) ∧
         (parse_page k p).lsn < lsn.getD 0 then
        emitted lsn prev (k + 1) rest
      else
        ⟨⟨k, (parse_page k p).hole_offset, (parse_page k p).hole_length, false⟩,
          BLCKSZ - (parse_page k p).hole_length⟩ ::
          emitted lsn prev (k + 1) rest := rfl

/-- Shape invariant of a backup stream before its endpoint: non-endpoint
headers with non-decreasing-from-n, strictly increasing block numbers and
in-bounds holes. -/
def goodChain : Nat → List BackupRecord → Prop
  | _, [] => True
  | n, r :: rest =>
    r.header.endpoint = false ∧ n ≤ r.header.block ∧
    r.header.hole_offset ≤ BLCKSZ ∧
    r.header.hole_offset + r.header.hole_length ≤ BLCKSZ ∧
    goodChain (r.header.block + 1) rest

theorem goodChain_mono {m n : Nat} (h : m ≤ n) :
    ∀ {l : List BackupRecord}, goodChain n l → goodChain m l := by
  intro l hl
  cases l with
  | nil => trivial
  | cons r rest =>
    obtain ⟨h1, h2, h3, h4, h5⟩ := hl
    exact ⟨h1, le_trans h h2, h3, h4, h5⟩

/-- Hole bounds of a recognized page: the hole lies inside the page. -/
theorem parse_page_hole_le (blkno : Nat) (page : DataPage)
    (h : (parse_page blkno page).recognized = true) :
    (parse_page blkno page).hole_offset ≤ BLCKSZ ∧
    (parse_page blkno page).hole_offset +
      (parse_page blkno page).hole_length ≤ BLCKSZ := by
  by_cases hmain : page_header_sane page
  · by_cases hmeta : page_is_index_metapage blkno page
    · have hpp : (parse_page blkno page).recognized = false := by
        unfold parse_page; rw [if_pos hmain, if_pos hmeta]
      rw [h] at hpp; cases hpp
    · have hpp : parse_page blkno page =
          { recognized := true, lsn := page.pd_lsn,
            hole_offset := page.pd_lower,
            hole_length := page.pd_upper - page.pd_lower } := by
        unfold parse_page; rw [if_pos hmain, if_neg hmeta]
      rw [hpp]
      obtain ⟨-, -, -, -, h5, h6, h7, -, -⟩ := hmain
      constructor
      · show page.pd_lower ≤ BLCKSZ
        omega
      · show page.pd_lower + (page.pd_upper - page.pd_lower) ≤ BLCKSZ
        omega
  · have hpp : (parse_page blkno page).recognized = false := by
      unfold parse_page; rw [if_neg hmain]
    rw [h] at hpp; cases hpp

theorem emitted_goodChain (lsn : Option Nat) (prev : Bool) :
    ∀ (blocks : List DataPage) (k : Nat), allValidFrom k blocks →
      goodChain k (emitted lsn prev k blocks) := by
  intro blocks
  induction blocks with
  | nil => intro k _; trivial
  | cons p rest ih =>
    intro k hall
    obtain ⟨hv, hrest⟩ := hall
    rw [emitted_cons]
    split_ifs with hskip
    · exact goodChain_mono (Nat.le_succ k) (ih (k + 1) hrest)
    · obtain ⟨hb1, hb2⟩ := parse_page_hole_le k p hv
      exact ⟨rfl, le_refl k, hb1, hb2, ih (k + 1) hrest⟩

theorem restore_reaches_endpoint :
    ∀ (recs : List BackupRecord) (n size : Nat) (ep : BackupPageHeader)
      (clen : Nat), goodChain n recs → ep.endpoint = true →
      restore_data_file (recs ++ [⟨ep, clen⟩]) n size =
        .ok ((ep.block - 1) * BLCKSZ) := by
  intro recs
  induction recs with
  | nil =>
    intro n size ep clen _ hep
    show restore_data_file (⟨ep, clen⟩ :: []) n size = _
    rw [restore_data_file_cons, if_pos hep]
  | cons r rest ih =>
    intro n size ep clen hchain hep
    obtain ⟨h1, h2, h3, h4, h5⟩ := hchain
    show restore_data_file (r :: (rest ++ [⟨ep, clen⟩])) n size = _
    rw [restore_data_file_cons]
    rw [if_neg (by rw [h1]; exact Bool.false_ne_true)]
    rw [if_neg (by push_neg; exact ⟨by omega, by omega, by omega⟩)]
    exact ih (r.header.block + 1) _ ep clen h5 hep

/-- The block loop succeeds on an all-valid file and emits exactly the
filtered records, never shrinking write_size. -/
theorem bdfLoop_emits (lsn : Option Nat) (prev : Bool) :
    ∀ (blocks : List DataPage) (k : Nat) (st : BdfState),
      allValidFrom k blocks →
      ∃ st', bdfLoop lsn prev blocks k st = some (k + blocks.length, st') ∧
        st'.records = st.records ++ emitted lsn prev k blocks ∧
        st.write_size ≤ st'.write_size := by
  intro blocks
  induction blocks with
  | nil =>
    intro k st _
    exact ⟨st, rfl, by simp [emitted], le_refl _⟩
  | cons p rest ih =>
    intro k st hall
    obtain ⟨hv, hrest⟩ := hall
    by_cases hskip : (¬(prev = true) ∧ lsn.isSome = true ∧
        ¬(XLogRecPtrIsInvalid (parse_page k p).lsn = true) ∧
        (parse_page k p).lsn < lsn.getD 0)
    · have hstep : bdfStep lsn prev k p st =
          some { st with read_size := st.read_size + BLCKSZ } := by
        unfold bdfStep
        rw [if_pos hv, if_pos hskip]
      have hred : bdfLoop lsn prev (p :: rest) k st =
          bdfLoop lsn prev rest (k + 1)
            { st with read_size := st.read_size + BLCKSZ } := by
        rw [bdfLoop_cons, hstep]
      obtain ⟨st', hloop, hrecs, hws⟩ :=
        ih (k + 1) { st with read_size := st.read_size + BLCKSZ } hrest
      refine ⟨st', ?_, ?_, hws⟩
      · rw [hred, hloop]
        have hlen : k + 1 + rest.length = k + (p :: rest).length := by
          show k + 1 + rest.length = k + (rest.length + 1)
          omega
        rw [hlen]
      · rw [hrecs, emitted_cons, if_pos hskip]
    · have hstep : bdfStep lsn prev k p st =
          some { st with
            read_size := st.read_size + BLCKSZ,
            records := st.records ++
              [⟨⟨k, (parse_page k p).hole_offset,
                 (parse_page k p).hole_length, false⟩,
                BLCKSZ - (parse_page k p).hole_length⟩],
            write_size := st.write_size +
              (sizeofBackupPageHeader +
                (BLCKSZ - (parse_page k p).hole_length)) } := by
        unfold bdfStep
        rw [if_pos hv, if_neg hskip]
      have hred : bdfLoop lsn prev (p :: rest) k st =
          bdfLoop lsn prev rest (k + 1)
            { st with
              read_size := st.read_size + BLCKSZ,
              records := st.records ++
                [⟨⟨k, (parse_page k p).hole_offset,
                   (parse_page k p).hole_length, false⟩,
                  BLCKSZ - (parse_page k p).hole_length⟩],
              write_size := st.write_size +
                (sizeofBackupPageHeader +
                  (BLCKSZ - (parse_page k p).hole_length)) } := by
        rw [bdfLoop_cons, hstep]
      obtain ⟨st', hloop, hrecs, hws⟩ := ih (k + 1) _ hrest
      refine ⟨st', ?_, ?_, ?_⟩
      · rw [hred, hloop]
        have hlen : k + 1 + rest.length = k + (p :: rest).length := by
          show k + 1 + rest.length = k + (rest.length + 1)
          omega
        rw [hlen]
      · rw [hrecs, emitted_cons, if_neg hskip]
        simp
      · have hle : st.write_size ≤ st.write_size +
            (sizeofBackupPageHeader + (BLCKSZ - (parse_page k p).hole_length)) :=
          Nat.le_add_right _ _
        exact le_trans hle hws

/-- Reduction of backup_data_file once the block loop's result is known. -/
theorem backup_data_file_eq_of_loop (src : SrcDataFile) (lsn : Option Nat)
    (backup_mode : BackupMode) (prev_file_not_found : Bool) (blknum : Nat)
    (st0 : BdfState)
    (h : bdfLoop lsn prev_file_not_found src.blocks 0 ⟨[], 0, 0⟩ =
      some (blknum, st0)) :
    backup_data_file src lsn backup_mode prev_file_not_found =
      bdfFinal (if 0 < src.tailLen ∧ blknum = 0 then src.tailLen else 0)
        (!decide (0 < src.tailLen ∧ blknum = 0))
        (bdfEndpoint backup_mode blknum (bdfOddTail src.tailLen blknum st0)) := by
  unfold backup_data_file
  rw [h]

/-- C2: backing up an all-valid data file of N whole blocks in incremental
mode succeeds (output kept, return value true) and ends the stream with a
sentinel record having endpoint = true and block = N + 1; restoring that
stream truncates the destination to (block - 1) * BLCKSZ = N * BLCKSZ and
stops, whatever size the destination inherited from the base backup. -/
theorem backup_data_file_endpoint_truncates (blocks : List DataPage)
    (lsn : Option Nat) (prev_file_not_found : Bool)
    (hall : allValidFrom 0 blocks) :
    ∃ recs rs ws df,
      backup_data_file ⟨blocks, 0⟩ lsn BACKUP_MODE_INCREMENTAL
        prev_file_not_found = .done recs 0 rs ws df false true ∧
      recs.getLast? = some ⟨⟨blocks.length + 1, 0, 0, true⟩, 0⟩ ∧
      ∀ initSize, restore_data_file recs 0 initSize =
        .ok (blocks.length * BLCKSZ) := by
  obtain ⟨st', hloop, hrecs, hws⟩ :=
    bdfLoop_emits lsn prev_file_not_found blocks 0 ⟨[], 0, 0⟩ hall
  have hzero : (0 : Nat) + blocks.length = blocks.length := by omega
  rw [hzero] at hloop
  have hodd : bdfOddTail 0 blocks.length st' = st' := by
    unfold bdfOddTail
    simp
  have hep : bdfEndpoint BACKUP_MODE_INCREMENTAL blocks.length st' =
      { st' with
        records := st'.records ++ [⟨⟨blocks.length + 1, 0, 0, true⟩, 0⟩],
        write_size := st'.write_size + sizeofBackupPageHeader } := by
    unfold bdfEndpoint
    rw [if_pos rfl]
  have hmain : backup_data_file ⟨blocks, 0⟩ lsn BACKUP_MODE_INCREMENTAL
      prev_file_not_found =
      bdfFinal 0 true
        { st' with
          records := st'.records ++ [⟨⟨blocks.length + 1, 0, 0, true⟩, 0⟩],
          write_size := st'.write_size + sizeofBackupPageHeader } := by
    have heq := backup_data_file_eq_of_loop ⟨blocks, 0⟩ lsn
      BACKUP_MODE_INCREMENTAL prev_file_not_found blocks.length st' hloop
    dsimp only at heq
    have h1 : (if 0 < (0 : Nat) ∧ blocks.length = 0 then (0 : Nat) else 0)
        = 0 := by simp
    have h2 : (!decide (0 < (0 : Nat) ∧ blocks.length = 0)) = true := by simp
    rw [h1, h2, hodd, hep] at heq
    exact heq
  refine ⟨st'.records ++ [⟨⟨blocks.length + 1, 0, 0, true⟩, 0⟩],
    st'.read_size, st'.write_size + sizeofBackupPageHeader,
    (if st'.read_size = 0 then false else true), ?_, ?_, ?_⟩
  · rw [hmain]
    unfold bdfFinal
    rw [if_neg (by
      rintro ⟨hzero', -⟩
      dsimp only at hzero'
      unfold sizeofBackupPageHeader at hzero'
      omega)]
  · rw [List.getLast?_append_cons]
    rfl
  · intro initSize
    rw [hrecs]
    simp only [List.nil_append]
    exact restore_reaches_endpoint (emitted lsn prev_file_not_found 0 blocks)
      0 initSize ⟨blocks.length + 1, 0, 0, true⟩ 0
      (emitted_goodChain lsn prev_file_not_found blocks 0 hall) rfl

/-- Witness for backup_data_file_endpoint_truncates: a two-block file backed
up incrementally ends with an endpoint record for block 3, and restoring the
stream yields a file of exactly 2 * BLCKSZ bytes. -/
theorem backup_data_file_endpoint_truncates_witness :
    ∃ recs rs ws df,
      backup_data_file ⟨[demoPage, demoPage], 0⟩ none
        BACKUP_MODE_INCREMENTAL false = .done recs 0 rs ws df false true ∧
      recs.getLast? = some ⟨⟨3, 0, 0, true⟩, 0⟩ ∧
      ∀ initSize, restore_data_file recs 0 initSize = .ok (2 * BLCKSZ) :=
  backup_data_file_endpoint_truncates [demoPage, demoPage] none false
    (by decide)

/-! ## Archive-log retention (src/backup.c delete_old_files, src/xlog.c
xlog_is_complete_wal)

delete_old_files sorts the catalog-listed files of ARCLOG_PATH (or
SRVLOG_PATH) by mtime, walks them newest first, and deletes the eligible
files that are neither among the keep_files newest nor newer than the
days threshold; deleting a file also deletes every file whose name extends
it (its backup history files).  The days threshold is computed by the
caller from current.start_time - keep_days*86400 rounded down to local
midnight via localtime/mktime; it is passed here as days_threshold. -/

/-- WAL block size (XLOG_BLCKSZ) of the build. -/
def XLOG_BLCKSZ : Nat := 8192

/-- XLOG_PAGE_MAGIC of the PostgreSQL headers this tree builds against
(PG 16). -/
def XLOG_PAGE_MAGIC : Nat := 0xD113

/-- XLP_LONG_HEADER flag bit. -/
def XLP_LONG_HEADER : Nat := 0x0002

/-- Complement of XLP_ALL_FLAGS (0x0007) within the uint16 xlp_info. -/
def XLP_INVALID_FLAG_MASK : Nat := 0xFFF8

/-- Fields of XLogLongPageHeaderData consulted by xlog_is_complete_wal. -/
structure XLogPageHdr where
  xlp_magic : Nat
  xlp_info : Nat
  xlp_seg_size : Nat
  xlp_xlog_blcksz : Nat
deriving DecidableEq, Repr

/-- A file of the archive-log (or server-log) directory: its path, mtime,
stat size, and the first XLOG_BLCKSZ of its content parsed as a long page
header (none when the file cannot be opened or is shorter than a page). -/
structure AFile where
  path : List Char
  mtime : Nat
  size : Nat
  firstPage : Option XLogPageHdr
deriving DecidableEq, Repr

/-- KEEP_INFINITE = INT_MAX (src/pg_rman.h:199). -/
def KEEP_INFINITE : Nat := 2147483647

/-- Embedding of xlog_is_complete_wal (src/xlog.c:36-72): the first page
must carry the XLOG magic, no invalid info flags, the long-header flag, the
configured segment and WAL block sizes, and the file size must equal one
segment. -/
def xlog_is_complete_wal (f : AFile) (wal_segment_size : Nat) : Bool :=
  match f.firstPage with
  | none => false
  | some page =>
    page.xlp_magic = XLOG_PAGE_MAGIC &&
    page.xlp_info &&& XLP_INVALID_FLAG_MASK = 0 &&
    !(page.xlp_info &&& XLP_LONG_HEADER = 0) &&
    page.xlp_seg_size = wal_segment_size &&
    page.xlp_xlog_blcksz = XLOG_BLCKSZ &&
    f.size = wal_segment_size

/-- Sort relation of pgFileCompareMtime (src/dir.c:227-238): ascending
by mtime. -/
def mtimeAsc (a b : AFile) : Prop :=
  a.mtime ≤ b.mtime

instance (a b : AFile) : Decidable (mtimeAsc a b) := by
  unfold mtimeAsc; infer_instance

instance : IsTotal AFile mtimeAsc :=
  ⟨fun a b => Nat.le_total a.mtime b.mtime⟩

instance : IsTrans AFile mtimeAsc :=
  ⟨fun _ _ _ h1 h2 => Nat.le_trans h1 h2⟩

/-- Body of one iteration of the deletion loop of delete_old_files
(src/backup.c:1691-1755) at index i of the current array: the files deleted
now, the array afterwards, and the updated file_num.  parray_get out of
range reaches parray.c, which is not under src/; nothing is fetched then. -/
def dofStep (is_arclog : Bool)
    (wal_segment_size keep_files keep_days days_threshold : Nat)
    (i : Nat) (files : List AFile) (file_num : Nat) :
    List AFile × List AFile × Nat :=
  match files.get? i with
  | none => ([], files, file_num)
  | some file =>
    if is_arclog = true ∧ ¬(xlog_is_complete_wal file wal_segment_size = true) then
      ([], files, file_num)
    else if keep_files ≠ KEEP_INFINITE ∧ file_num + 1 ≤ keep_files then
      ([], files, file_num + 1)
    else if keep_days ≠ KEEP_INFINITE ∧ days_threshold ≤ file.mtime then
      ([], files, file_num + 1)
    else
      (file :: ((files.eraseIdx i).partition (fun file2 =>
         !(file.path = ([] : List Char)) && !(file2.path = ([] : List Char)) &&
         strstrAtStart file2.path file.path)).1,
       ((files.eraseIdx i).partition (fun file2 =>
         !(file.path = ([] : List Char)) && !(file2.path = ([] : List Char)) &&
         strstrAtStart file2.path file.path)).2,
       file_num + 1)

/-- The deletion loop of delete_old_files, indices i down to 0 over the
mutating array, collecting the deleted files. -/
def dofLoop (is_arclog : Bool)
    (wal_segment_size keep_files keep_days days_threshold : Nat) :
    Nat → List AFile → Nat → List AFile
  | 0, files, file_num =>
    (dofStep is_arclog wal_segment_size keep_files keep_days days_threshold
      0 files file_num).1
  | i + 1, files, file_num =>
    (dofStep is_arclog wal_segment_size keep_files keep_days days_threshold
      (i + 1) files file_num).1 ++
    dofLoop is_arclog wal_segment_size keep_files keep_days days_threshold
      i
      (dofStep is_arclog wal_segment_size keep_files keep_days days_threshold
        (i + 1) files file_num).2.1
      (dofStep is_arclog wal_segment_size keep_files keep_days days_threshold
        (i + 1) files file_num).2.2

/-- Result of delete_old_files: the deleted files and whether the
DEBUG-level "do not delete old files" note was printed. -/
structure DofResult where
  deleted : List AFile
  debug_note : Bool
deriving DecidableEq, Repr

/-- Embedding of delete_old_files (src/backup.c:1625-1756): when both keep
settings are KEEP_INFINITE, print the debug note and delete nothing;
otherwise sort by mtime ascending and run the deletion loop from the last
index down. -/
def delete_old_files (files : List AFile)
    (keep_files keep_days days_threshold : Nat)
    (is_arclog : Bool) (wal_segment_size : Nat) : DofResult :=
  if keep_files = KEEP_INFINITE ∧ keep_days = KEEP_INFINITE then
    { deleted := [], debug_note := true }
  else
    { deleted :=
        dofLoop is_arclog wal_segment_size keep_files keep_days days_threshold
          ((files.insertionSort mtimeAsc).length - 1)
          (files.insertionSort mtimeAsc) 0,
      debug_note := false }

/-- The retention rule as the specification states it, applied to the
files newest first: skip files that are not complete WAL segments (archive
log only), keep the first keep_files eligible files, keep eligible files
whose mtime is at or after the days threshold, delete the rest. -/
def dofSpecScan (wal_segment_size keep_files keep_days days_threshold : Nat)
    (is_arclog : Bool) : List AFile → Nat → List AFile
  | [], _ => []
  | f :: rest, file_num =>
    if is_arclog = true ∧ ¬(xlog_is_complete_wal f wal_segment_size = true) then
      dofSpecScan wal_segment_size keep_files keep_days days_threshold
        is_arclog rest file_num
    else if keep_files ≠ KEEP_INFINITE ∧ file_num + 1 ≤ keep_files then
      dofSpecScan wal_segment_size keep_files keep_days days_threshold
        is_arclog rest (file_num + 1)
    else if keep_days ≠ KEEP_INFINITE ∧ days_threshold ≤ f.mtime then
      dofSpecScan wal_segment_size keep_files keep_days days_threshold
        is_arclog rest (file_num + 1)
    else
      f :: dofSpecScan wal_segment_size keep_files keep_days days_threshold
        is_arclog rest (file_num + 1)

/-- No path of the list is an initial segment of another entry's path (and
no two entries share a path). -/
def prefixFreeRel (a b : AFile) : Prop :=
  strstrAtStart a.path b.path = false ∧ strstrAtStart b.path a.path = false

instance (a b : AFile) : Decidable (prefixFreeRel a b) := by
  unfold prefixFreeRel; infer_instance

/-- A complete 16 MiB WAL segment, mtime 0 (older than the threshold). -/
def demoWalSeg : AFile :=
  { path := ['w'], mtime := 0, size := 16777216,
    firstPage := some { xlp_magic := 0xD113, xlp_info := 2,
                        xlp_seg_size := 16777216, xlp_xlog_blcksz := 8192 } }

/-- A backup history file whose name extends the segment's name; not a
complete WAL segment. -/
def demoHistFile : AFile :=
  { path := ['w', '.', 'b'], mtime := 1, size := 100, firstPage := none }

/-- Pairwise relations reach from the element at index i to every element
of the list with that index erased, given symmetry. -/
theorem pairwise_get_eraseIdx {α : Type} {R : α → α → Prop}
    (hsym : ∀ {a b : α}, R a b → R b a) :
    ∀ (l : List α) (i : Nat) (h : i < l.length),
      l.Pairwise R → ∀ y ∈ l.eraseIdx i, R l[i] y := by
  intro l
  induction l with
  | nil => intro i h; simp at h
  | cons a t ih =>
    intro i h hp y hy
    rcases List.pairwise_cons.mp hp with ⟨hhead, htail⟩
    cases i with
    | zero =>
      simp only [List.eraseIdx_cons_zero] at hy
      simpa using hhead y hy
    | succ j =>
      have hj : j < t.length := by simpa using h
      simp only [List.eraseIdx_cons_succ] at hy
      simp only [List.getElem_cons_succ]
      rcases List.mem_cons.mp hy with rfl | hy'
      · exact hsym (hhead _ (List.getElem_mem hj))
      · exact ih j hj htail y hy'

/-- Erasing at index i does not change the first i elements. -/
theorem take_eraseIdx_eq {α : Type} :
    ∀ (l : List α) (i : Nat), (l.eraseIdx i).take i = l.take i := by
  intro l
  induction l with
  | nil => intro i; simp [List.eraseIdx]
  | cons a t ih =>
    intro i
    cases i with
    | zero => simp
    | succ j => simp [List.eraseIdx_cons_succ, ih j]

/-- Erasing an in-range index shortens the list by one. -/
theorem length_eraseIdx_of_lt {α : Type} :
    ∀ (l : List α) (i : Nat), i < l.length →
      (l.eraseIdx i).length = l.length - 1 := by
  intro l
  induction l with
  | nil => intro i h; simp at h
  | cons a t ih =>
    intro i h
    cases i with
    | zero => simp
    | succ j =>
      have hj : j < t.length := by simpa using h
      simp [List.eraseIdx_cons_succ, ih j hj]
      omega

/-- Reversing one more taken element exposes the element at index i. -/
theorem take_succ_reverse {α : Type} (l : List α) (i : Nat) (h : i < l.length) :
    (l.take (i + 1)).reverse = l[i] :: (l.take i).reverse := by
  rw [List.take_succ]
  simp [List.getElem?_eq_getElem h]

/-- On a prefix-free file list the history-file cascade of a deletion at
index i matches nothing: the partition returns no matches and leaves the
rest of the array unchanged. -/
theorem dof_cascade_empty (files : List AFile) (i : Nat) (h : i < files.length)
    (hp : files.Pairwise prefixFreeRel) :
    (files.eraseIdx i).partition (fun file2 =>
        !(files[i].path = ([] : List Char)) &&
        !(file2.path = ([] : List Char)) &&
        strstrAtStart file2.path files[i].path)
      = ([], files.eraseIdx i) := by
  have hall : ∀ y ∈ files.eraseIdx i,
      (!(files[i].path = ([] : List Char)) &&
       !(y.path = ([] : List Char)) &&
       strstrAtStart y.path files[i].path) = false := by
    intro y hy
    have hrel : prefixFreeRel files[i] y :=
      pairwise_get_eraseIdx (fun hab => ⟨hab.2, hab.1⟩) files i h hp y hy
    simp only [hrel.2, Bool.and_false]
  rw [List.partition_eq_filter_filter]
  refine Prod.ext ?_ ?_
  · refine List.filter_eq_nil_iff.mpr ?_
    intro y hy
    simp only [hall y hy]
    exact Bool.false_ne_true
  · refine List.filter_eq_self.mpr ?_
    intro y hy
    simp only [Function.comp_apply, hall y hy]
    rfl

/-- The deletion loop of delete_old_files on a prefix-free array equals the
specification scan of its processed part, read newest first: position i
down to 0 of the current array is take (i+1) of it reversed, and on a
prefix-free array deletions never cascade, so the scan sees exactly the
suffix the loop still has to visit. -/
theorem dofLoop_eq_spec (is_arclog : Bool)
    (wal_segment_size keep_files keep_days days_threshold : Nat) :
    ∀ (i : Nat) (files : List AFile) (fn : Nat), i < files.length →
      files.Pairwise prefixFreeRel →
      dofLoop is_arclog wal_segment_size keep_files keep_days days_threshold
          i files fn =
        dofSpecScan wal_segment_size keep_files keep_days days_threshold
          is_arclog ((files.take (i + 1)).reverse) fn := by
  intro i
  induction i with
  | zero =>
    intro files fn h hp
    have hget : files.get? 0 = some files[0] := by
      rw [List.get?_eq_getElem?]
      exact List.getElem?_eq_getElem h
    rw [take_succ_reverse files 0 h]
    simp only [List.take_zero, List.reverse_nil]
    simp only [dofLoop, dofStep, hget, dofSpecScan]
    split_ifs with c1 c2 c3
    · rfl
    · rfl
    · rfl
    · rw [dof_cascade_empty files 0 h hp]
  | succ i' ih =>
    intro files fn h hp
    have hget : files.get? (i' + 1) = some files[i' + 1] := by
      rw [List.get?_eq_getElem?]
      exact List.getElem?_eq_getElem h
    have h' : i' < files.length := Nat.lt_of_succ_lt h
    rw [take_succ_reverse files (i' + 1) h]
    simp only [dofLoop, dofStep, hget, dofSpecScan]
    split_ifs with c1 c2 c3
    · dsimp only
      rw [List.nil_append, ih files fn h' hp]
    · dsimp only
      rw [List.nil_append, ih files (fn + 1) h' hp]
    · dsimp only
      rw [List.nil_append, ih files (fn + 1) h' hp]
    · rw [dof_cascade_empty files (i' + 1) h hp]
      have hlen : i' < (files.eraseIdx (i' + 1)).length := by
        rw [length_eraseIdx_of_lt files (i' + 1) h]
        omega
      have hp' : (files.eraseIdx (i' + 1)).Pairwise prefixFreeRel :=
        hp.sublist (List.eraseIdx_sublist files (i' + 1))
      dsimp only
      rw [ih (files.eraseIdx (i' + 1)) (fn + 1) hlen hp']
      rw [take_eraseIdx_eq files (i' + 1)]
      rfl

/-- Every file selected by the specification scan passed its eligibility
checks: under an archive-log pass it is a complete WAL segment, and under a
finite keep_days it is older than the days threshold. -/
theorem dofSpecScan_mem_props
    (wal_segment_size keep_files keep_days days_threshold : Nat)
    (is_arclog : Bool) :
    ∀ (l : List AFile) (fn : Nat) (f : AFile),
      f ∈ dofSpecScan wal_segment_size keep_files keep_days days_threshold
            is_arclog l fn →
      (is_arclog = true → xlog_is_complete_wal f wal_segment_size = true) ∧
      (keep_days ≠ KEEP_INFINITE → f.mtime < days_threshold) := by
  intro l
  induction l with
  | nil => intro fn f hf; simp [dofSpecScan] at hf
  | cons a t ih =>
    intro fn f hf
    simp only [dofSpecScan] at hf
    split_ifs at hf with c1 c2 c3
    · exact ih fn f hf
    · exact ih (fn + 1) f hf
    · exact ih (fn + 1) f hf
    · rcases List.mem_cons.mp hf with rfl | hf'
      · refine ⟨fun harc => ?_, fun hkd => ?_⟩
        · by_contra hc
          exact c1 ⟨harc, hc⟩
        · exact Nat.lt_of_not_le (fun hle => c3 ⟨hkd, hle⟩)
      · exact ih (fn + 1) f hf'

/-- Counterexample to C7 as stated: with keep_files = 0, keep_days = 0 and
threshold 5, the pass deletes not only the old complete WAL segment but
also its backup history file, which is not a complete WAL segment — the
deleted set is strictly larger than the claim's. -/
theorem delete_old_files_counterexample :
    (delete_old_files [demoWalSeg, demoHistFile] 0 0 5 true 16777216).deleted
      = [demoWalSeg, demoHistFile] ∧
    xlog_is_complete_wal demoHistFile 16777216 = false ∧
    demoHistFile ∈
      (delete_old_files [demoWalSeg, demoHistFile] 0 0 5 true 16777216).deleted := by
  decide

/-- C7 (amended): when both keep settings are KEEP_INFINITE,
delete_old_files prints only the debug note and deletes nothing.
Otherwise, provided no listed path is an initial segment of another listed
path (so the history-file cascade cannot match), it deletes exactly the
files selected by the specification's newest-first scan over the
mtime-sorted listing: files that are not complete WAL segments are skipped
on an archive-log pass, the keep_files newest eligible files are kept, as
is every eligible file whose mtime is at or after the days threshold, and
the rest are deleted.  Consequently every deleted file of an archive-log
pass is a complete WAL segment and, when keep_days is finite, is older
than the threshold. -/
theorem delete_old_files_spec (files : List AFile)
    (keep_files keep_days days_threshold : Nat)
    (is_arclog : Bool) (wal_segment_size : Nat)
    (hpf : files.Pairwise prefixFreeRel) :
    delete_old_files files KEEP_INFINITE KEEP_INFINITE days_threshold
        is_arclog wal_segment_size = ⟨[], true⟩ ∧
    (¬(keep_files = KEEP_INFINITE ∧ keep_days = KEEP_INFINITE) →
      delete_old_files files keep_files keep_days days_threshold
          is_arclog wal_segment_size =
        ⟨dofSpecScan wal_segment_size keep_files keep_days days_threshold
            is_arclog ((files.insertionSort mtimeAsc).reverse) 0, false⟩) ∧
    (∀ f ∈ (delete_old_files files keep_files keep_days days_threshold
        is_arclog wal_segment_size).deleted,
      (is_arclog = true → xlog_is_complete_wal f wal_segment_size = true) ∧
      (keep_days ≠ KEEP_INFINITE → f.mtime < days_threshold)) := by
  have hsymm : ∀ {a b : AFile}, prefixFreeRel a b → prefixFreeRel b a :=
    fun hab => ⟨hab.2, hab.1⟩
  have hps : (files.insertionSort mtimeAsc).Pairwise prefixFreeRel :=
    ((List.perm_insertionSort mtimeAsc files).pairwise_iff
      (fun hab => hsymm hab)).mpr hpf
  have hmain : ¬(keep_files = KEEP_INFINITE ∧ keep_days = KEEP_INFINITE) →
      delete_old_files files keep_files keep_days days_threshold
          is_arclog wal_segment_size =
        ⟨dofSpecScan wal_segment_size keep_files keep_days days_threshold
            is_arclog ((files.insertionSort mtimeAsc).reverse) 0, false⟩ := by
    intro hne
    unfold delete_old_files
    rw [if_neg hne]
    obtain ⟨s, hs⟩ : ∃ s, files.insertionSort mtimeAsc = s := ⟨_, rfl⟩
    rw [hs] at hps ⊢
    cases s with
    | nil => simp [dofLoop, dofStep, dofSpecScan]
    | cons a t =>
      have hlen : (a :: t).length - 1 < (a :: t).length := by
        simp only [List.length_cons]
        omega
      rw [dofLoop_eq_spec is_arclog wal_segment_size keep_files keep_days
        days_threshold ((a :: t).length - 1) (a :: t) 0 hlen hps]
      have hfull : (a :: t).length - 1 + 1 = (a :: t).length := by
        simp only [List.length_cons]
        omega
      rw [hfull, List.take_length]
  refine ⟨?_, hmain, ?_⟩
  · unfold delete_old_files
    rw [if_pos ⟨rfl, rfl⟩]
  · intro f hf
    by_cases hinf : keep_files = KEEP_INFINITE ∧ keep_days = KEEP_INFINITE
    · unfold delete_old_files at hf
      rw [if_pos hinf] at hf
      simp at hf
    · rw [hmain hinf] at hf
      exact dofSpecScan_mem_props wal_segment_size keep_files keep_days
        days_threshold is_arclog ((files.insertionSort mtimeAsc).reverse) 0 f hf

/-- The amended retention theorem applied at a concrete archive-log pass:
one old complete WAL segment, keep_files = 0, keep_days = 0, threshold 5;
the prefix-freedom and finiteness hypotheses hold and the segment is
deleted exactly as the specification scan demands. -/
theorem delete_old_files_spec_witness :
    ([demoWalSeg] : List AFile).Pairwise prefixFreeRel ∧
    ¬((0 : Nat) = KEEP_INFINITE ∧ (0 : Nat) = KEEP_INFINITE) ∧
    delete_old_files [demoWalSeg] 0 0 5 true 16777216 =
      ⟨dofSpecScan 16777216 0 0 5 true
          (([demoWalSeg].insertionSort mtimeAsc).reverse) 0, false⟩ ∧
    (delete_old_files [demoWalSeg] 0 0 5 true 16777216).deleted
      = [demoWalSeg] := by
  refine ⟨by decide, by decide, ?_, by decide⟩
  exact (delete_old_files_spec [demoWalSeg] 0 0 5 true 16777216
    (by decide)).2.1 (by decide)

end PgRman
